import Mathlib

/-!
Running statistics and index windows of `xmath/buffer`.

A shallow embedding of `src/xmath/buffer/stats.go` (`Stats`, `StatsCollector`,
`Bucket`, `Window`, `SizeWindow`), of `Network.Train`, `Network.WithWeights` and
`Network.InitWeights` of `src/xmachina/net/rnn/network.go`, and a model of the
sliding window that `src/xmath/time/window_test.go` tests, followed by the
properties proved about them.

Conventions of the embedding.

* Go `int` and `int64` are 64-bit two's-complement integers: they are `Int`
  here and every addition or subtraction the source performs on them is
  wrapped by `wrapInt64`.
* `float64` is taken in exact arithmetic.  A finite value is a rational; the
  result of a division by zero (`NaN` or an infinity) is no finite value.
  Fields that are the result of a division are `F64 = Option ℚ`, where `none`
  stands for such a non-finite value; the values handed to `Push` are finite.
* A Go panic is an outcome of the call (`Except Panic _`), returned next to
  the state the call leaves behind.
-/

namespace Buffer

/-- Two's-complement wrap-around of a 64-bit signed integer. -/
def wrapInt64 (x : Int) : Int :=
  (x + 2 ^ 63) % 2 ^ 64 - 2 ^ 63

/-- A `float64` in exact arithmetic: `some q` is the finite value `q`, `none` a
non-finite value (`NaN`, `+Inf`, `-Inf`). -/
abbrev F64 := Option ℚ

/-- Addition of `float64`: a non-finite operand gives a non-finite result. -/
def fadd : F64 → F64 → F64
  | some a, some b => some (a + b)
  | _, _ => none

/-- Subtraction of `float64`: a non-finite operand gives a non-finite result. -/
def fsub : F64 → F64 → F64
  | some a, some b => some (a - b)
  | _, _ => none

/-- Multiplication of `float64`: a non-finite operand gives a non-finite result. -/
def fmul : F64 → F64 → F64
  | some a, some b => some (a * b)
  | _, _ => none

/-- Division of a `float64` by the conversion `float64(n)` of an integer, the
only kind of division in the source: dividing by zero gives `NaN` or an
infinity, dividing a finite value by a non-zero integer gives the quotient. -/
def fdivInt : F64 → Int → F64
  | some a, n => if n = 0 then none else some (a / (n : ℚ))
  | none, _ => none

/-- The constant `math.MaxFloat64`, `(2 - 2^(-52)) * 2^1023`. -/
def MaxFloat64 : ℚ := (2 ^ 53 - 1) * 2 ^ 971

/-- The fields of `type Stats struct`. -/
structure Stats where
  count : Int
  sum : ℚ
  first : ℚ
  last : ℚ
  min : ℚ
  max : ℚ
  mean : F64
  dSquared : F64
deriving DecidableEq

/-- The constructor `NewStats`: every field is zero except `min`. -/
def NewStats : Stats :=
  { count := 0, sum := 0, first := 0, last := 0, min := MaxFloat64, max := 0,
    mean := some 0, dSquared := some 0 }

/-- The method `Stats.Push`. -/
def Stats.Push (s : Stats) (v : ℚ) : Stats :=
  let count := wrapInt64 (s.count + 1)
  let sum := s.sum + v
  let diff := fdivInt (fsub (some v) s.mean) count
  let mean := fadd s.mean diff
  let squaredDiff := fmul (fsub (some v) mean) (fsub (some v) s.mean)
  let dSquared := fadd s.dSquared squaredDiff
  let first := if count = 1 then v else s.first
  let min := if s.min > v then v else s.min
  let max := if s.max < v then v else s.max
  { count := count, sum := sum, first := first, last := v, min := min, max := max,
    mean := mean, dSquared := dSquared }

/-- The method `Stats.Avg`. -/
def Stats.Avg (s : Stats) : F64 := s.mean

/-- The method `Stats.Sum`. -/
def Stats.Sum (s : Stats) : ℚ := s.sum

/-- The method `Stats.Count`. -/
def Stats.Count (s : Stats) : Int := s.count

/-- The method `Stats.Diff`. -/
def Stats.Diff (s : Stats) : ℚ := s.last - s.first

/-- The method `Stats.Variance`. -/
def Stats.Variance (s : Stats) : F64 := fdivInt s.dSquared s.count

/-- The method `Stats.SampleVariance`. -/
def Stats.SampleVariance (s : Stats) : F64 :=
  fdivInt s.dSquared (wrapInt64 (s.count - 1))

/-- The values `vs` pushed one by one, in order, onto the accumulator `s`. -/
def Stats.pushAll (s : Stats) (vs : List ℚ) : Stats :=
  vs.foldl Stats.Push s

/-- The arithmetic mean `(v1 + ... + vn) / n` of a sequence, as the
specification words it. -/
def arithmeticMean (vs : List ℚ) : ℚ := vs.sum / (vs.length : ℚ)

/-- The population variance `(1/n) * Σ (vi - m)^2` of a sequence, `m` its
arithmetic mean, as the specification words it. -/
def populationVariance (vs : List ℚ) : ℚ :=
  (vs.map (fun v => (v - arithmeticMean vs) ^ 2)).sum / (vs.length : ℚ)

/-- The run-time panics the modelled code can raise. -/
inductive Panic where
  /-- The `panic` of `StatsCollector.Push`, "inconsistent dimensions %d vs %d". -/
  | inconsistentDimensions (got want : Int)
  /-- The `panic` of `Window.Push`, "last bucket has not been consumed. Cant create a new one!". -/
  | lastBucketNotConsumed
  /-- Indexing a slice outside its bounds. -/
  | indexOutOfRange
  /-- Dereferencing a nil pointer. -/
  | nilDereference
  /-- The function `make` called with a negative length. -/
  | makesliceLenOutOfRange
  /-- The `panic` of `Network.WithWeights` and `Network.InitWeights`,
  "rnn layer already initialised". -/
  | rnnLayerAlreadyInitialised
  /-- The failure DimensionMismatch of a construction whose weight matrix has
  not the declared shape. -/
  | dimensionMismatch
deriving DecidableEq

/-- The fields of `type StatsCollector struct`; every element of `stats` is a
pointer to an accumulator of its own. -/
structure StatsCollector where
  dim : Int
  stats : List Stats
deriving DecidableEq

/-- The constructor `NewStatsCollector`: `make([]*Stats, dim)` panics on a
negative `dim`, otherwise every slot receives a `NewStats()`. -/
def NewStatsCollector (dim : Int) : Except Panic StatsCollector :=
  if dim < 0 then Except.error Panic.makesliceLenOutOfRange
  else Except.ok { dim := dim, stats := List.replicate dim.toNat NewStats }

/-- The loop `for i := 0; i < len(sc.stats); i++ { sc.stats[i].Push(v[i]) }` of
`StatsCollector.Push`, from position `i` on: the accumulators still to visit
are given, the ones visited before a panic stay modified. -/
def StatsCollector.pushLoop (v : List ℚ) : Nat → List Stats → List Stats × Except Panic Unit
  | _, [] => ([], Except.ok ())
  | i, s :: rest =>
    match v[i]? with
    | none => (s :: rest, Except.error Panic.indexOutOfRange)
    | some x =>
      let r := StatsCollector.pushLoop v (i + 1) rest
      (s.Push x :: r.1, r.2)

/-- The method `StatsCollector.Push`: the collector after the call and the
outcome of the call. -/
def StatsCollector.Push (sc : StatsCollector) (v : List ℚ) :
    StatsCollector × Except Panic Unit :=
  if (v.length : Int) ≠ sc.dim then
    (sc, Except.error (Panic.inconsistentDimensions v.length sc.dim))
  else
    let r := StatsCollector.pushLoop v 0 sc.stats
    ({ sc with stats := r.1 }, r.2)

/-- The method `StatsCollector.Stats`. -/
def StatsCollector.Stats (sc : StatsCollector) : List Stats := sc.stats

/-- The method `StatsCollector.Size`, `sc.stats[0].count`. -/
def StatsCollector.Size (sc : StatsCollector) : Except Panic Int :=
  match sc.stats with
  | [] => Except.error Panic.indexOutOfRange
  | s :: _ => Except.ok s.count

/-- The tuples `ts` pushed one after the other onto a collector, whatever the
outcome of each call. -/
def StatsCollector.pushAll (sc : StatsCollector) (ts : List (List ℚ)) : StatsCollector :=
  ts.foldl (fun c t => (c.Push t).1) sc

/-- The components `t1[i], ..., tn[i]` of the tuples `ts`, in order (zero
stands for a component that a tuple does not have). -/
def column (ts : List (List ℚ)) (i : Nat) : List ℚ :=
  ts.map (fun t => t.getD i 0)

/-- The collectors that `StatsCollector.Push` calls produce from
`NewStatsCollector(dim)`, failed calls included. -/
inductive StatsCollector.Reachable (dim : Int) : StatsCollector → Prop where
  | init (sc : StatsCollector) (h : NewStatsCollector dim = Except.ok sc) :
      StatsCollector.Reachable dim sc
  | push (sc : StatsCollector) (v : List ℚ) (h : StatsCollector.Reachable dim sc) :
      StatsCollector.Reachable dim (sc.Push v).1

/-- The fields of `type Bucket struct`; the collector behind the pointer
`stats` is held by value, no two buckets of a window share one. -/
structure Bucket where
  stats : StatsCollector
  index : Int
deriving DecidableEq

/-- The constructor `NewBucket`. -/
def NewBucket (id : Int) (dim : Int) : Except Panic Bucket :=
  match NewStatsCollector dim with
  | Except.error p => Except.error p
  | Except.ok sc => Except.ok { stats := sc, index := id }

/-- The method `Bucket.Push`: the bucket after the call and the outcome. -/
def Bucket.Push (b : Bucket) (index : Int) (v : List ℚ) : Bucket × Except Panic Bool :=
  if index ≠ b.index then (b, Except.ok false)
  else
    let r := b.stats.Push v
    match r.2 with
    | Except.error p => ({ b with stats := r.1 }, Except.error p)
    | Except.ok _ => ({ b with stats := r.1 }, Except.ok true)

/-- The method `Bucket.Size`. -/
def Bucket.Size (b : Bucket) : Except Panic Int := b.stats.Size

/-- The method `Bucket.Values`. -/
def Bucket.Values (b : Bucket) : StatsCollector := b.stats

/-- The method `Bucket.Index`. -/
def Bucket.Index (b : Bucket) : Int := b.index

/-- The fields of `type Window struct`; `last` is `none` for a nil pointer. -/
structure Window where
  size : Int
  lastIndex : Int
  last : Option Bucket
  current : Bucket
deriving DecidableEq

/-- The constructor `NewWindow`: `lastIndex` is zero, `last` is nil and the
current bucket is `NewBucket(0, int(size))`. -/
def NewWindow (size : Int) : Except Panic Window :=
  match NewBucket 0 size with
  | Except.error p => Except.error p
  | Except.ok b => Except.ok { size := size, lastIndex := 0, last := none, current := b }

/-- The branches of `Window.Push` that precede `w.current.Push`: the window
they leave and, unless they panic, the value of `ready`. -/
def Window.open (w : Window) (index : Int) (value : List ℚ) : Window × Except Panic Bool :=
  if index = 0 then
    match NewBucket index value.length with
    | Except.error p => ({ w with lastIndex := index }, Except.error p)
    | Except.ok b => ({ w with lastIndex := index, current := b }, Except.ok false)
  else if index ≥ wrapInt64 (w.lastIndex + w.size) then
    match w.last with
    | some _ => (w, Except.error Panic.lastBucketNotConsumed)
    | none =>
      match w.current.Size with
      | Except.error p => (w, Except.error p)
      | Except.ok n =>
        let w1 : Window := if n > 0 then { w with last := some w.current } else w
        let ready : Bool := decide (n > 0)
        match NewBucket index value.length with
        | Except.error p => (w1, Except.error p)
        | Except.ok b => ({ w1 with current := b, lastIndex := index }, Except.ok ready)
  else (w, Except.ok false)

/-- The method `Window.Push`: the window after the call and either the panic
or the pair `(lastIndex, ready)` it returns. -/
def Window.Push (w : Window) (index : Int) (value : List ℚ) :
    Window × Except Panic (Int × Bool) :=
  let lastIndex := w.lastIndex
  let o := w.open index value
  match o.2 with
  | Except.error p => (o.1, Except.error p)
  | Except.ok ready =>
    let r := o.1.current.Push o.1.lastIndex value
    match r.2 with
    | Except.error p => ({ o.1 with current := r.1 }, Except.error p)
    | Except.ok _ => ({ o.1 with current := r.1 }, Except.ok (lastIndex, ready))

/-- The method `Window.Current`. -/
def Window.Current (w : Window) : Int := w.lastIndex

/-- The method `Window.Next`. -/
def Window.Next (w : Window) : Int := wrapInt64 (w.lastIndex + w.size)

/-- The method `Window.Get`: dereferencing a nil `last` panics, otherwise the
bucket is returned and `last` is set to nil. -/
def Window.Get (w : Window) : Window × Except Panic Bucket :=
  match w.last with
  | none => (w, Except.error Panic.nilDereference)
  | some b => ({ w with last := none }, Except.ok b)

/-- A call of `Window.Push` or `Window.Get`. -/
inductive WindowCall where
  | push (index : Int) (value : List ℚ)
  | get
deriving DecidableEq

/-- The window a call leaves behind, whether it returned or panicked. -/
def Window.after (w : Window) : WindowCall → Window
  | WindowCall.push index value => (w.Push index value).1
  | WindowCall.get => w.Get.1

/-- The windows that `Push` and `Get` calls produce from `NewWindow(size)`. -/
inductive Window.Reachable (size : Int) : Window → Prop where
  | init (w : Window) (h : NewWindow size = Except.ok w) : Window.Reachable size w
  | call (w : Window) (c : WindowCall) (h : Window.Reachable size w) :
      Window.Reachable size (w.after c)

/-- The window `NewWindow(2)` creates. -/
def Window.two : Window :=
  { size := 2, lastIndex := 0, last := none,
    current := { stats := { dim := 2, stats := [NewStats, NewStats] }, index := 0 } }

/-- The window `NewWindow(0)` creates. -/
def Window.zero : Window :=
  { size := 0, lastIndex := 0, last := none,
    current := { stats := { dim := 0, stats := [] }, index := 0 } }

/-- The window after `NewWindow(0)`, `Push(0, 1)`, `Push(1, 1)` and
`Push(0, 1)`: the second call closed a bucket, which is still pending. -/
def Window.restarted : Window :=
  ((Window.zero.after (WindowCall.push 0 [1])).after (WindowCall.push 1 [1])).after
    (WindowCall.push 0 [1])

/-- The window after a sequence of `Push` calls, given by their arguments,
whatever the outcome of each. -/
def Window.pushAll (w : Window) (calls : List (Int × List ℚ)) : Window :=
  calls.foldl (fun u c => (u.Push c.1 c.2).1) w

/-- The window after `NewWindow(1)` and `Push(0, 1)`. -/
def Window.started : Window :=
  Window.after
    { size := 1, lastIndex := 0, last := none,
      current := { stats := { dim := 1, stats := [NewStats] }, index := 0 } }
    (WindowCall.push 0 [1])

/-- A window of size `s` without a pending closed bucket whose current bucket
has index `k * s`, arity `d` and `r + 1` samples in every dimension. -/
def Window.Filled (s d k r : Nat) (w : Window) : Prop :=
  w.size = (s : Int) ∧ w.lastIndex = ((k * s : Nat) : Int) ∧ w.last = none ∧
    w.current.index = ((k * s : Nat) : Int) ∧ w.current.stats.dim = (d : Int) ∧
    w.current.stats.stats.length = d ∧
    ∀ st ∈ w.current.stats.stats, st.count = ((r + 1 : Nat) : Int)

/-- One step of a consumer that pushes the sample `value` at `index` and calls
`Get` when, and only when, the push reported a closed bucket. -/
def Window.feed (w : Window) (index : Int) (value : List ℚ) : Window :=
  let r := w.Push index value
  match r.2 with
  | Except.ok (_, true) => r.1.Get.1
  | _ => r.1

/-- The window after the samples `vals 0, ..., vals (n - 1)` were fed to `w`
with the consecutive indices `0, ..., n - 1`. -/
def Window.feedAll (vals : Nat → List ℚ) (w : Window) : Nat → Window
  | 0 => w
  | n + 1 => (Window.feedAll vals w n).feed n (vals n)

/-- The sample variance `(1/(n-1)) * Σ (vi - m)^2` of a sequence, `m` its
arithmetic mean, as the specification words it. -/
def sampleVariance (vs : List ℚ) : ℚ :=
  (vs.map (fun v => (v - arithmeticMean vs) ^ 2)).sum / ((vs.length : ℚ) - 1)

/-- The largest of the pushed values `v :: vs`, as the specification words
it. -/
def largest (v : ℚ) (vs : List ℚ) : ℚ := vs.foldl (fun a b => if a < b then b else a) v

/-- The smallest of the pushed values `v :: vs`, as the specification words
it. -/
def smallest (v : ℚ) (vs : List ℚ) : ℚ := vs.foldl (fun a b => if b < a then b else a) v

/-- The number of calls of `StatsCollector.Push` that return without a panic
when the tuples `ts` are pushed one after the other onto `sc`. -/
def StatsCollector.succeeded (sc : StatsCollector) : List (List ℚ) → Nat
  | [] => 0
  | t :: ts =>
    (match (sc.Push t).2 with
      | Except.ok _ => 1
      | Except.error _ => 0) + StatsCollector.succeeded (sc.Push t).1 ts

/-- The buckets that `Bucket.Push` calls, with any index and any values,
produce from `NewBucket(id, dim)`. -/
inductive Bucket.Reachable (id dim : Int) : Bucket → Prop where
  | init (b : Bucket) (h : NewBucket id dim = Except.ok b) : Bucket.Reachable id dim b
  | push (b : Bucket) (index : Int) (v : List ℚ) (h : Bucket.Reachable id dim b) :
      Bucket.Reachable id dim (b.Push index v).1

/-- The bucket `NewBucket(5, 0)` creates: it has no dimension. -/
def Bucket.empty : Bucket := { stats := { dim := 0, stats := [] }, index := 5 }

/-- The fields of `type SizeWindow struct`; the window behind the pointer
`window` is held by value, nothing else refers to it. -/
structure SizeWindow where
  i : Int
  window : Window
deriving DecidableEq

/-- The constructor `NewSizeWindow`. -/
def NewSizeWindow (size : Int) : Except Panic SizeWindow :=
  match NewWindow size with
  | Except.error p => Except.error p
  | Except.ok w => Except.ok { i := 0, window := w }

/-- The method `SizeWindow.Push`: the window after the call and either the
panic or the pair it returns (`none` for a nil bucket).  The condition of the
`if` calls `sw.window.Get()` whatever `sw.window.Push` returned, and the body
calls it a second time. -/
def SizeWindow.Push (sw : SizeWindow) (v : ℚ) :
    SizeWindow × Except Panic (Option Bucket × Bool) :=
  let iter := sw.i
  let p := sw.window.Push iter [v]
  match p.2 with
  | Except.error e => ({ sw with window := p.1 }, Except.error e)
  | Except.ok _ =>
    let g := p.1.Get
    match g.2 with
    | Except.error e => ({ sw with window := g.1 }, Except.error e)
    | Except.ok b1 =>
      match b1.Size with
      | Except.error e => ({ sw with window := g.1 }, Except.error e)
      | Except.ok n =>
        if p.1.size > n then
          let g2 := g.1.Get
          match g2.2 with
          | Except.error e => ({ sw with window := g2.1 }, Except.error e)
          | Except.ok b => ({ i := wrapInt64 (sw.i + 1), window := g2.1 }, Except.ok (some b, true))
        else ({ sw with window := g.1 }, Except.ok (none, false))

/-- The size window `NewSizeWindow(3)` creates. -/
def SizeWindow.three : SizeWindow :=
  { i := 0,
    window :=
      { size := 3, lastIndex := 0, last := none,
        current := { stats := { dim := 3, stats := [NewStats, NewStats, NewStats] }, index := 0 } } }

/-- The window `NewWindow(3)` creates. -/
def Window.three : Window :=
  { size := 3, lastIndex := 0, last := none,
    current := { stats := { dim := 3, stats := [NewStats, NewStats, NewStats] }, index := 0 } }

end Buffer

namespace Rnn

open Buffer

/-- The type `xmath.Vector`, a slice of `float64`. -/
abbrev Vector := List ℚ

/-- The type `xmath.Matrix`, a slice of vectors. -/
abbrev Matrix := List Vector

/-- Modelled from the spec: the helper `xmath.Vec` is not under src/; it is the
vector of the given length with every entry zero (section 4.4, "it returns a
zero-error vector"). -/
def Vec (n : Nat) : Vector := List.replicate n 0

/-- The types `Network` refers to whose declarations are not under src/: the
sliding window `xmath.Window`, the layer `RNNLayer`, its `Weights`, the error
bucket of `net.Stats`, and the configuration values `ml.Learning`,
`ml.SoftActivation` and `NeuronFactory`. -/
structure Sig where
  Win : Type
  Layer : Type
  Weights : Type
  Bucket : Type
  Learning : Type
  SoftActivation : Type
  NeuronFactory : Type

/-- The fields of `net.Stats` that `Network` reads and writes. -/
structure NetStats (σ : Sig) where
  Iteration : Int
  Bucket : σ.Bucket

/-- The functions `Network.Train` calls whose bodies are not under src/, taken
as given: the methods of `xmath.Window`, of `RNNLayer` and of `net.Stats`, and
the helpers `xmath.Inp` and `xmath.Outp`. -/
structure Deps (σ : Sig) where
  Push : σ.Win → Vector → σ.Win × Bool
  Batch : σ.Win → σ.Win × Matrix
  Inp : Matrix → Matrix
  Outp : Matrix → Matrix
  Forward : σ.Layer → Matrix → σ.Layer × Matrix
  Backward : σ.Layer → Matrix → σ.Layer
  Weights : σ.Layer → σ.Weights
  Add : NetStats σ → ℚ → NetStats σ

/-- The fields of `type Network struct`; a nil `*RNNLayer` and a nil `loss`
are `none`. -/
structure Network (σ : Sig) where
  RNNLayer : Option σ.Layer
  Stats : NetStats σ
  learn : σ.Learning
  activation : σ.SoftActivation
  neuronFactory : σ.NeuronFactory
  n : Int
  xDim : Int
  hDim : Int
  loss : Option (Matrix → Matrix → Vector)
  predictInput : σ.Win
  trainOutput : σ.Win
  TmpOutput : Vector

/-- A call of a method of the recurrent layer that changes the layer. -/
inductive LayerCall where
  | Forward
  | Backward
deriving DecidableEq

/-- What a call of `Network.Train` leaves behind: the network, the calls of
`Forward` and `Backward` it made on the layer, in order, and either a panic or
the pair `(err, weights)` it returns. -/
structure TrainResult (σ : Sig) where
  net : Network σ
  calls : List LayerCall
  out : Except Panic (Vector × σ.Weights)

/-- The statement `return loss, net.RNNLayer.Weights()` of `Network.Train`. -/
def Network.finish {σ : Sig} (d : Deps σ) (net : Network σ) (calls : List LayerCall)
    (loss : Vector) : TrainResult σ :=
  match net.RNNLayer with
  | none => { net := net, calls := calls, out := Except.error Panic.nilDereference }
  | some l => { net := net, calls := calls, out := Except.ok (loss, d.Weights l) }

/-- The body of `if batchIsReady { ... }` of `Network.Train` and the `return`
that follows it. -/
def Network.trainBatch {σ : Sig} (d : Deps σ) (net : Network σ) : TrainResult σ :=
  let b := d.Batch net.trainOutput
  let net1 : Network σ := { net with trainOutput := b.1 }
  let inp := d.Inp b.2
  let outp := d.Outp b.2
  match net1.RNNLayer with
  | none => { net := net1, calls := [], out := Except.error Panic.nilDereference }
  | some l =>
    let f := d.Forward l inp
    let net2 : Network σ := { net1 with RNNLayer := some f.1 }
    match f.2.getLast? with
    | none =>
      { net := net2, calls := [LayerCall.Forward], out := Except.error Panic.indexOutOfRange }
    | some lastOut =>
      let net3 : Network σ := { net2 with TmpOutput := lastOut }
      match net3.loss with
      | none =>
        { net := net3, calls := [LayerCall.Forward], out := Except.error Panic.nilDereference }
      | some lossFn =>
        let loss := lossFn outp f.2
        let l2 := d.Backward f.1 outp
        let st : NetStats σ :=
          { net3.Stats with Iteration := wrapInt64 (net3.Stats.Iteration + 1) }
        let net4 : Network σ := { net3 with RNNLayer := some l2, Stats := d.Add st loss.sum }
        Network.finish d net4 [LayerCall.Forward, LayerCall.Backward] loss

/-- The method `Network.Train`. -/
def Network.Train {σ : Sig} (d : Deps σ) (net : Network σ) (data : Vector) : TrainResult σ :=
  let t := d.Push net.trainOutput data
  let batchIsReady := t.2
  let p := d.Push net.predictInput data
  let loss := Vec data.length
  let net1 : Network σ :=
    { net with trainOutput := t.1, predictInput := p.1, TmpOutput := Vec data.length }
  if batchIsReady then Network.trainBatch d net1
  else Network.finish d net1 [] loss

/-- A concrete signature: windows, layers, weights and error buckets are
counters. -/
@[reducible] def Sig.counters : Sig :=
  { Win := Nat, Layer := Nat, Weights := Nat, Bucket := Nat,
    Learning := Unit, SoftActivation := Unit, NeuronFactory := Unit }

/-- Concrete dependencies over `Sig.counters`: a window counts the vectors
pushed and is ready from the third on, a layer counts the passes made. -/
def Deps.counters : Deps Sig.counters :=
  { Push := fun (w : Nat) _ => (w + 1, decide (3 ≤ w + 1))
    Batch := fun (w : Nat) => (w, [[0]])
    Inp := fun m => m
    Outp := fun m => m
    Forward := fun (l : Nat) m => (l + 1, m)
    Backward := fun (l : Nat) _ => l + 1
    Weights := fun (l : Nat) => l
    Add := fun st _ => st }

/-- An initialised network over `Sig.counters` whose windows are empty. -/
def Network.counters : Network Sig.counters :=
  { RNNLayer := some (7 : Nat), Stats := { Iteration := 0, Bucket := (0 : Nat) },
    learn := (), activation := (), neuronFactory := (),
    n := 2, xDim := 2, hDim := 2, loss := none,
    predictInput := (0 : Nat), trainOutput := (0 : Nat), TmpOutput := [] }

/-- The constructors of `RNNLayer` that `Network.WithWeights` and
`Network.InitWeights` call and whose bodies are not under src/, taken as
given; each returns the layer or fails (a construction is rejected when the
weights have not the declared shape).  `Gen` is the type
`xmath.ScaledVectorGenerator`. -/
structure LayerDeps (σ : Sig) (Gen : Type) where
  LoadRNNLayer :
    Int → Int → Int → σ.Learning → σ.NeuronFactory → σ.Weights → Int → Except Panic σ.Layer
  NewRNNLayer :
    Int → Int → Int → σ.Learning → σ.NeuronFactory → Gen → Int → Except Panic σ.Layer

/-- The method `Network.WithWeights`: the network after the call and the
outcome (the method returns its receiver).  A panic of `LoadRNNLayer` is
raised before the assignment to `net.RNNLayer`. -/
def Network.WithWeights {σ : Sig} {Gen : Type} (d : LayerDeps σ Gen) (net : Network σ)
    (weights : σ.Weights) : Network σ × Except Panic Unit :=
  match net.RNNLayer with
  | some _ => (net, Except.error Panic.rnnLayerAlreadyInitialised)
  | none =>
    match d.LoadRNNLayer net.n net.xDim net.hDim net.learn net.neuronFactory weights 0 with
    | Except.error p => (net, Except.error p)
    | Except.ok l => ({ net with RNNLayer := some l }, Except.ok ())

/-- The method `Network.InitWeights`: the network after the call and the
outcome (the method returns its receiver).  A panic of `NewRNNLayer` is raised
before the assignment to `net.RNNLayer`. -/
def Network.InitWeights {σ : Sig} {Gen : Type} (d : LayerDeps σ Gen) (net : Network σ)
    (weightGenerator : Gen) : Network σ × Except Panic Unit :=
  match net.RNNLayer with
  | some _ => (net, Except.error Panic.rnnLayerAlreadyInitialised)
  | none =>
    match d.NewRNNLayer net.n net.xDim net.hDim net.learn net.neuronFactory weightGenerator 0 with
    | Except.error p => (net, Except.error p)
    | Except.ok l => ({ net with RNNLayer := some l }, Except.ok ())

/-- A concrete signature in which the weights and the layer are weight
matrices, row `i` being the weight vector of unit `i`. -/
@[reducible] def Sig.matrices : Sig :=
  { Win := Nat, Layer := Matrix, Weights := Matrix, Bucket := Nat,
    Learning := Unit, SoftActivation := Unit, NeuronFactory := Unit }

/-- Modelled from the spec: the constructor `LoadRNNLayer` is not under src/.
Section 6: "Configuration is rejected (construction fails) if initial weight
matrix shape does not match declared input/output dimensions"; section 3: a
matrix is rectangular and row `i` is the weight vector feeding unit `i`.  The
weights must have `hDim` rows of length `xDim`; the layer built holds them. -/
def LoadRNNLayer (_n xDim hDim : Int) (_learn : Unit) (_neuronFactory : Unit)
    (weights : Matrix) (_index : Int) : Except Panic Matrix :=
  if (weights.length : Int) = hDim ∧ ∀ row ∈ weights, (row.length : Int) = xDim then
    Except.ok weights
  else Except.error Panic.dimensionMismatch

/-- Modelled from the spec: the constructor `NewRNNLayer` is not under src/.
The generator gives the weight vector of every unit for the declared input
dimension, so the weights generated have the declared shape. -/
def NewRNNLayer (_n xDim hDim : Int) (_learn : Unit) (_neuronFactory : Unit)
    (weightGenerator : Nat → Vector) (_index : Int) : Except Panic Matrix :=
  Except.ok (List.replicate hDim.toNat (weightGenerator xDim.toNat))

/-- The layer constructors modelled from the spec, over `Sig.matrices`. -/
def LayerDeps.shaped : LayerDeps Sig.matrices (Nat → Vector) :=
  { LoadRNNLayer := Rnn.LoadRNNLayer, NewRNNLayer := Rnn.NewRNNLayer }

/-- The network `New(2, 2, 2)` creates, over `Sig.matrices`: the layer is not
yet initialised and the windows are empty. -/
def Network.unset : Network Sig.matrices :=
  { RNNLayer := none, Stats := { Iteration := 0, Bucket := (0 : Nat) },
    learn := (), activation := (), neuronFactory := (),
    n := 2, xDim := 2, hDim := 2, loss := none,
    predictInput := (0 : Nat), trainOutput := (0 : Nat), TmpOutput := [] }

end Rnn

namespace Time

/-- Modelled from the spec: the sliding window of package `xmath/time`
(`NewWindow`, `Window.Push`) is not under src/, only its test
`TestWindow_Add` is.  It is the fixed-capacity buffer of section 2 that
overwrites on full: it holds the pushed elements in insertion order, at most
`size` of them, the oldest one making room for the new one once it is full. -/
structure Window (α : Type) where
  size : Nat
  mem : List α

/-- Modelled from the spec: the constructor `NewWindow` of `xmath/time`, not
under src/; the buffer starts empty. -/
def NewWindow {α : Type} (size : Nat) : Window α := { size := size, mem := [] }

/-- Modelled from the spec: the method `Window.Push` of `xmath/time`, not under
src/.  The element is appended, the oldest one is dropped when the buffer was
full, and the push is ready when the buffer holds `size` elements; the batch
is the content of the buffer then, and empty while it is not ready. -/
def Window.Push {α : Type} (w : Window α) (v : α) : Window α × (List α × Bool) :=
  let mem := if w.mem.length < w.size then w.mem ++ [v] else w.mem.tail ++ [v]
  let isReady := decide (mem.length = w.size)
  ({ w with mem := mem }, (if isReady then mem else [], isReady))

/-- The window after the elements `vs` were pushed in order. -/
def Window.pushAll {α : Type} (w : Window α) (vs : List α) : Window α :=
  vs.foldl (fun u v => (u.Push v).1) w

/-- The loop of `TestWindow_Add` for the iterations `1, ..., n`, with the
value `i` pushed in iteration `i`: whether every assertion made so far held,
and the window reached. -/
def testWindowAdd (size : Nat) : Nat → Bool × Window Nat
  | 0 => (true, NewWindow size)
  | i + 1 =>
    let r := testWindowAdd size i
    let p := r.2.Push (i + 1)
    let batch := p.2.1
    let isReady := p.2.2
    let okReady := if i + 1 < size then !isReady else isReady
    let okBatch :=
      if isReady then
        decide (batch.length = size) && decide (batch.head? = some (i + 1 - size + 1)) &&
          decide (batch.getLast? = some (i + 1))
      else true
    (r.1 && okReady && okBatch, p.1)

end Time

/-! ## Properties of the accumulator `Stats` -/

namespace Buffer

theorem wrapInt64_of_range (x : Int) (h1 : -2 ^ 63 ≤ x) (h2 : x < 2 ^ 63) : wrapInt64 x = x := by
  unfold wrapInt64
  omega

theorem sum_sq_sub (m : ℚ) (vs : List ℚ) :
    (vs.map (fun v => (v - m) ^ 2)).sum
      = (vs.map (fun v => v ^ 2)).sum - 2 * m * vs.sum + (vs.length : ℚ) * m ^ 2 := by
  induction vs with
  | nil => simp
  | cons a t ih =>
    simp only [List.map_cons, List.sum_cons, List.length_cons, ih]
    push_cast
    ring

/-- One `Push` keeps the Welford invariant: the count is the number of values
pushed, `mean * count` their sum `S` and `dSquared` is `Q - mean * S`, `Q` the
sum of their squares. -/
theorem Stats.Push_welford (s : Stats) (v : ℚ) (n : Nat) (m S Q : ℚ)
    (hn : (n : Int) + 1 < 2 ^ 63) (hc : s.count = n) (hm : s.mean = some m)
    (hS : m * n = S) (hd : s.dSquared = some (Q - m * S)) :
    (s.Push v).count = (n + 1 : Nat) ∧
      ∃ m1 : ℚ, (s.Push v).mean = some m1 ∧ m1 * ((n + 1 : Nat) : ℚ) = S + v ∧
        (s.Push v).dSquared = some (Q + v ^ 2 - m1 * (S + v)) := by
  have hw : wrapInt64 (s.count + 1) = (n : Int) + 1 := by
    rw [hc]
    exact wrapInt64_of_range _ (by omega) hn
  have hne : ((n : Int) + 1) ≠ 0 := by omega
  have hq : ((n : ℚ) + 1) ≠ 0 := by positivity
  refine ⟨by simp [Stats.Push, hw], m + (v - m) / ((n : ℚ) + 1), ?_, ?_, ?_⟩
  · simp [Stats.Push, hw, hm, fsub, fdivInt, fadd, hne]
  · push_cast
    field_simp
    rw [← hS]
    ring
  · simp only [Stats.Push, hw, hm, hd, fsub, fdivInt, fadd, fmul, hne, if_false]
    push_cast
    congr 1
    rw [← hS]
    field_simp
    ring

/-- The Welford invariant after pushing a whole sequence. -/
theorem Stats.pushAll_welford (vs : List ℚ) :
    ∀ (s : Stats) (n : Nat) (m S Q : ℚ), (n : Int) + vs.length < 2 ^ 63 → s.count = n →
      s.mean = some m → m * n = S → s.dSquared = some (Q - m * S) →
      (s.pushAll vs).count = (n + vs.length : Nat) ∧
        ∃ m1 : ℚ, (s.pushAll vs).mean = some m1 ∧
          m1 * ((n + vs.length : Nat) : ℚ) = S + vs.sum ∧
          (s.pushAll vs).dSquared
            = some (Q + (vs.map (fun v => v ^ 2)).sum - m1 * (S + vs.sum)) := by
  induction vs with
  | nil =>
    intro s n m S Q _ hc hm hS hd
    exact ⟨by simpa [Stats.pushAll] using hc, m, by simpa [Stats.pushAll] using hm,
      by simpa using hS, by simpa [Stats.pushAll] using hd⟩
  | cons a t ih =>
    intro s n m S Q hn hc hm hS hd
    simp only [List.length_cons, Nat.cast_add, Nat.cast_one] at hn
    obtain ⟨hc1, m1, hm1, hS1, hd1⟩ := Stats.Push_welford s a n m S Q (by omega) hc hm hS hd
    obtain ⟨hc2, m2, hm2, hS2, hd2⟩ :=
      ih (s.Push a) (n + 1) m1 (S + a) (Q + a ^ 2) (by push_cast; omega) hc1 hm1 hS1 hd1
    have hl : n + 1 + t.length = n + (a :: t).length := by simp; omega
    have hp : s.pushAll (a :: t) = (s.Push a).pushAll t := rfl
    rw [hp, ← hl]
    refine ⟨hc2, m2, hm2, ?_, ?_⟩
    · rw [hS2]; simp; ring
    · rw [hd2]; simp; ring

/-- The state of a fresh accumulator after a sequence of fewer than `2^63`
values: count, mean and accumulated squared deviation. -/
theorem Stats.pushAll_NewStats (vs : List ℚ) (hne : vs ≠ []) (hlen : (vs.length : Int) < 2 ^ 63) :
    (NewStats.pushAll vs).count = vs.length ∧
      (NewStats.pushAll vs).mean = some (arithmeticMean vs) ∧
      (NewStats.pushAll vs).dSquared = some (populationVariance vs * vs.length) := by
  obtain ⟨hc, m, hm, hS, hd⟩ :=
    Stats.pushAll_welford vs NewStats 0 0 0 0 (by simpa using hlen) rfl rfl (by simp)
      (by simp [NewStats])
  simp only [zero_add] at hc hS hd
  have hpos : (vs.length : ℚ) ≠ 0 := by
    have : vs.length ≠ 0 := by simpa using hne
    exact_mod_cast this
  have hmean : m = arithmeticMean vs := by
    unfold arithmeticMean
    field_simp
    exact hS
  subst hmean
  refine ⟨hc, hm, ?_⟩
  rw [hd]
  congr 1
  unfold populationVariance
  rw [sum_sq_sub]
  field_simp
  have hs : vs.sum = arithmeticMean vs * vs.length := hS.symm
  rw [hs]
  ring

/-- C1. Running mean: for every non-empty sequence of values (fewer than
`2^63` of them, so that the `int` counter does not wrap) pushed one by one with
`Stats.Push` onto `NewStats()`, `Avg()` is the arithmetic mean
`(v1 + ... + vn) / n` in exact arithmetic. -/
theorem Stats.Avg_pushAll (vs : List ℚ) (hne : vs ≠ []) (hlen : (vs.length : Int) < 2 ^ 63) :
    (NewStats.pushAll vs).Avg = some (arithmeticMean vs) :=
  (Stats.pushAll_NewStats vs hne hlen).2.1

/-- Witness of C1: pushing 2, 4, 4, 4, 5, 5, 7, 9 gives `Avg() = 5`. -/
theorem Stats.Avg_pushAll_witness :
    (NewStats.pushAll [2, 4, 4, 4, 5, 5, 7, 9]).Avg = some 5 := by
  have h := Stats.Avg_pushAll [2, 4, 4, 4, 5, 5, 7, 9] (by decide) (by decide)
  rw [h]
  norm_num [arithmeticMean]

/-- C2. Population variance: for every non-empty sequence of values (fewer than
`2^63` of them) pushed with `Stats.Push` onto `NewStats()`, `Variance()` is
`(1/n) * Σ (vi - m)^2`, `m` the arithmetic mean, in exact arithmetic. -/
theorem Stats.Variance_pushAll (vs : List ℚ) (hne : vs ≠ [])
    (hlen : (vs.length : Int) < 2 ^ 63) :
    (NewStats.pushAll vs).Variance = some (populationVariance vs) := by
  obtain ⟨hc, _, hd⟩ := Stats.pushAll_NewStats vs hne hlen
  have hpos : vs.length ≠ 0 := by simpa using hne
  have hq : (vs.length : ℚ) ≠ 0 := by exact_mod_cast hpos
  have hi : ((vs.length : Nat) : Int) ≠ 0 := by exact_mod_cast hpos
  simp only [Stats.Variance, hc, hd, fdivInt, hi, if_false]
  congr 1
  push_cast
  field_simp

/-- Witness of C2: pushing 2, 4, 4, 4, 5, 5, 7, 9 gives `Variance() = 4`. -/
theorem Stats.Variance_pushAll_witness :
    (NewStats.pushAll [2, 4, 4, 4, 5, 5, 7, 9]).Variance = some 4 := by
  have h := Stats.Variance_pushAll [2, 4, 4, 4, 5, 5, 7, 9] (by decide) (by decide)
  rw [h]
  norm_num [populationVariance, arithmeticMean]

/-- C10, counterexample: a fresh `NewStats()` has count 0, below two, and its
`SampleVariance()` is the finite value `0 / (0 - 1) = 0`. -/
theorem Stats.SampleVariance_NewStats :
    NewStats.Count < 2 ∧ NewStats.SampleVariance = some 0 := by
  refine ⟨by decide, ?_⟩
  have h : wrapInt64 (-1) = -1 := by decide
  simp [Stats.SampleVariance, NewStats, h, fdivInt]

/-- C10, amended. For every `Stats` whose count is exactly one,
`SampleVariance()` divides by `float64(count - 1) = 0` and yields no finite
value. -/
theorem Stats.SampleVariance_count_one (s : Stats) (h : s.Count = 1) :
    s.SampleVariance = none := by
  have hc : s.count = 1 := h
  have hw : wrapInt64 (1 - 1) = 0 := by decide
  unfold Stats.SampleVariance
  rw [hc, hw]
  cases s.dSquared <;> simp [fdivInt]

/-- Witness of C10, amended: a `NewStats()` with the single value 3 pushed. -/
theorem Stats.SampleVariance_count_one_witness :
    (NewStats.Push 3).Count = 1 ∧ (NewStats.Push 3).SampleVariance = none :=
  ⟨by decide, Stats.SampleVariance_count_one (NewStats.Push 3) (by decide)⟩

/-! ## Properties of `StatsCollector` -/

theorem StatsCollector.pushLoop_eq (v : List ℚ) :
    ∀ (stats : List Buffer.Stats) (i : Nat), stats.length + i ≤ v.length →
      StatsCollector.pushLoop v i stats
        = (List.zipWith Stats.Push stats (v.drop i), Except.ok ()) := by
  intro stats
  induction stats with
  | nil => intro i _; simp [StatsCollector.pushLoop]
  | cons s rest ih =>
    intro i h
    simp only [List.length_cons] at h
    have hi : i < v.length := by omega
    have hd : v.drop i = v[i] :: v.drop (i + 1) := List.drop_eq_getElem_cons hi
    simp only [StatsCollector.pushLoop, List.getElem?_eq_getElem hi, ih (i + 1) (by omega), hd,
      List.zipWith_cons_cons]

/-- A collector is well formed when `dim` is the number of its accumulators. -/
theorem StatsCollector.Push_of_length (sc : StatsCollector) (v : List ℚ)
    (hwf : (sc.stats.length : Int) = sc.dim) (hv : (v.length : Int) = sc.dim) :
    sc.Push v = ({ sc with stats := List.zipWith Stats.Push sc.stats v }, Except.ok ()) := by
  have hl : sc.stats.length + 0 ≤ v.length := by omega
  simp [StatsCollector.Push, hv, StatsCollector.pushLoop_eq v sc.stats 0 hl]

theorem StatsCollector.Push_of_length_ne (sc : StatsCollector) (v : List ℚ)
    (hv : (v.length : Int) ≠ sc.dim) :
    sc.Push v = (sc, Except.error (Panic.inconsistentDimensions v.length sc.dim)) := by
  simp [StatsCollector.Push, hv]

theorem StatsCollector.Push_wf (sc : StatsCollector) (v : List ℚ)
    (hwf : (sc.stats.length : Int) = sc.dim) :
    (sc.Push v).1.dim = sc.dim ∧ ((sc.Push v).1.stats.length : Int) = sc.dim := by
  by_cases hv : (v.length : Int) = sc.dim
  · rw [StatsCollector.Push_of_length sc v hwf hv]
    have : v.length = sc.stats.length := by omega
    simp [this, hwf]
  · rw [StatsCollector.Push_of_length_ne sc v hv]
    exact ⟨rfl, hwf⟩

theorem NewStatsCollector_ok (dim : Int) (sc : StatsCollector)
    (h : NewStatsCollector dim = Except.ok sc) :
    0 ≤ dim ∧ sc = { dim := dim, stats := List.replicate dim.toNat NewStats } := by
  unfold NewStatsCollector at h
  split at h
  · cases h
  · refine ⟨by omega, ?_⟩
    injection h with h
    exact h.symm

theorem StatsCollector.Reachable.wf {dim : Int} {sc : StatsCollector}
    (h : StatsCollector.Reachable dim sc) :
    sc.dim = dim ∧ (sc.stats.length : Int) = dim := by
  induction h with
  | init sc h =>
    obtain ⟨h0, rfl⟩ := NewStatsCollector_ok dim sc h
    simp
    omega
  | push sc v _ ih =>
    obtain ⟨h1, h2⟩ := StatsCollector.Push_wf sc v (by rw [ih.1, ih.2])
    exact ⟨by rw [h1, ih.1], by rw [h2, ih.1]⟩

/-- C7. Arity check: on a collector obtained from `NewStatsCollector(dim)` by
any calls of `Push`, a call `Push(v...)` panics if and only if
`len(v) != dim`; the panic is the inconsistent-dimensions one and leaves every
accumulator as it was. -/
theorem StatsCollector.Push_panics_iff (dim : Int) (sc : StatsCollector) (v : List ℚ)
    (h : StatsCollector.Reachable dim sc) :
    ((∃ p, (sc.Push v).2 = Except.error p) ↔ (v.length : Int) ≠ dim) ∧
      ((v.length : Int) = dim → (sc.Push v).2 = Except.ok ()) ∧
      ((v.length : Int) ≠ dim →
        sc.Push v = (sc, Except.error (Panic.inconsistentDimensions v.length dim))) := by
  obtain ⟨hd, hl⟩ := h.wf
  have hok : (v.length : Int) = dim → (sc.Push v).2 = Except.ok () := by
    intro hv
    rw [StatsCollector.Push_of_length sc v (by rw [hl, hd]) (by rw [hv, hd])]
  have hbad : (v.length : Int) ≠ dim →
      sc.Push v = (sc, Except.error (Panic.inconsistentDimensions v.length dim)) := by
    intro hv
    rw [StatsCollector.Push_of_length_ne sc v (by rw [hd]; exact hv), hd]
  refine ⟨⟨?_, ?_⟩, hok, hbad⟩
  · rintro ⟨p, hp⟩ hv
    rw [hok hv] at hp
    cases hp
  · intro hv
    exact ⟨_, by rw [hbad hv]⟩

/-- Witness of C7: a two-dimensional collector rejects a tuple of one value
and stays as it was. -/
theorem StatsCollector.Push_panics_iff_witness :
    StatsCollector.Push { dim := 2, stats := List.replicate 2 NewStats } [1]
      = ({ dim := 2, stats := List.replicate 2 NewStats },
          Except.error (Panic.inconsistentDimensions 1 2)) :=
  (StatsCollector.Push_panics_iff 2 { dim := 2, stats := List.replicate 2 NewStats } [1]
    (StatsCollector.Reachable.init _ rfl)).2.2 (by decide)

theorem StatsCollector.pushAll_getElem? (i : Nat) (ts : List (List ℚ)) :
    ∀ sc : StatsCollector, (sc.stats.length : Int) = sc.dim →
      (∀ t ∈ ts, (t.length : Int) = sc.dim) → i < sc.stats.length →
      (sc.pushAll ts).stats[i]? = sc.stats[i]?.map (fun s => s.pushAll (column ts i)) := by
  induction ts with
  | nil =>
    intro sc _ _ _
    simp [StatsCollector.pushAll, column, Stats.pushAll]
  | cons t ts ih =>
    intro sc hwf hts hi
    have ht : (t.length : Int) = sc.dim := hts t (List.mem_cons_self _ _)
    have hlen : t.length = sc.stats.length := by omega
    have hstep : sc.pushAll (t :: ts) = (sc.Push t).1.pushAll ts := rfl
    have hP := StatsCollector.Push_of_length sc t hwf ht
    obtain ⟨hd1, hl1⟩ := StatsCollector.Push_wf sc t hwf
    have hts1 : ∀ u ∈ ts, (u.length : Int) = (sc.Push t).1.dim := by
      intro u hu
      rw [hd1]
      exact hts u (List.mem_cons_of_mem _ hu)
    have hi1 : i < (sc.Push t).1.stats.length := by omega
    rw [hstep, ih (sc.Push t).1 (by rw [hl1, hd1]) hts1 hi1, hP]
    have hit : i < t.length := by omega
    simp [List.getElem?_zipWith, List.getElem?_eq_getElem hi, List.getElem?_eq_getElem hit,
      column, Stats.pushAll]

/-- C8. Fan-out per dimension: after the tuples `t1, ..., tn`, each of length
`dim`, were pushed onto `NewStatsCollector(dim)`, the accumulator `Stats()[i]`
of every dimension `i < dim` (so `dim >= 1`) is the `NewStats()` onto which
`t1[i], ..., tn[i]` were pushed in that order. -/
theorem StatsCollector.pushAll_fanOut (dim : Nat) (sc : StatsCollector) (ts : List (List ℚ))
    (i : Nat) (hsc : NewStatsCollector dim = Except.ok sc)
    (hts : ∀ t ∈ ts, t.length = dim) (hi : i < dim) :
    (sc.pushAll ts).Stats[i]? = some (NewStats.pushAll (column ts i)) := by
  obtain ⟨_, rfl⟩ := NewStatsCollector_ok dim sc hsc
  have h := StatsCollector.pushAll_getElem? i ts
    { dim := dim, stats := List.replicate (dim : Int).toNat NewStats } (by simp)
    (by intro t ht; simp [hts t ht]) (by simpa using hi)
  simp only [StatsCollector.Stats, h]
  simp [hi]

/-- Witness of C8: two tuples pushed onto a two-dimensional collector; the
second accumulator received 20 and then 40. -/
theorem StatsCollector.pushAll_fanOut_witness :
    (StatsCollector.pushAll { dim := 2, stats := List.replicate 2 NewStats }
        [[10, 20], [30, 40]]).Stats[1]?
      = some (NewStats.pushAll [20, 40]) :=
  StatsCollector.pushAll_fanOut 2 { dim := 2, stats := List.replicate 2 NewStats }
    [[10, 20], [30, 40]] 1 rfl (by decide) (by decide)

/-! ## Properties of `Bucket` and `Window` -/

theorem NewBucket_natCast (id : Int) (n : Nat) :
    NewBucket id (n : Int)
      = Except.ok { stats := { dim := n, stats := List.replicate n NewStats }, index := id } := by
  have h : ¬ ((n : Int) < 0) := by omega
  simp [NewBucket, NewStatsCollector, h]

theorem Bucket.Push_same (b : Bucket) (v : List ℚ)
    (hwf : (b.stats.stats.length : Int) = b.stats.dim) (hv : (v.length : Int) = b.stats.dim) :
    b.Push b.index v
      = ({ b with stats := { b.stats with stats := List.zipWith Stats.Push b.stats.stats v } },
          Except.ok true) := by
  simp [Bucket.Push, StatsCollector.Push_of_length b.stats v hwf hv]

theorem Bucket.Push_keeps_index (b : Bucket) (index : Int) (v : List ℚ) :
    (b.Push index v).1.index = b.index := by
  unfold Bucket.Push
  split
  · rfl
  · dsimp only
    split <;> rfl

theorem Window.open_zero (w : Window) (value : List ℚ) :
    w.open 0 value
      = ({ w with
            lastIndex := 0
            current :=
              { stats := { dim := value.length, stats := List.replicate value.length NewStats },
                index := 0 } },
          Except.ok false) := by
  simp [Window.open, NewBucket_natCast]

theorem Window.open_pending (w : Window) (index : Int) (value : List ℚ)
    (hlast : w.last.isSome = true) (h0 : index ≠ 0)
    (hge : index ≥ wrapInt64 (w.lastIndex + w.size)) :
    w.open index value = (w, Except.error Panic.lastBucketNotConsumed) := by
  obtain ⟨b, hb⟩ := Option.isSome_iff_exists.mp hlast
  simp [Window.open, h0, hge, hb]

theorem Window.Push_zero (w : Window) (value : List ℚ) :
    w.Push 0 value
      = ({ w with
            lastIndex := 0
            current :=
              { stats :=
                  { dim := value.length,
                    stats := List.zipWith Stats.Push (List.replicate value.length NewStats) value },
                index := 0 } },
          Except.ok (w.lastIndex, false)) := by
  have h := Bucket.Push_same
    { stats := { dim := value.length, stats := List.replicate value.length NewStats }, index := 0 }
    value (by simp) rfl
  simp only [Window.Push, Window.open_zero, h]

theorem Window.Get_of_last (w : Window) (b : Bucket) (h : w.last = some b) :
    w.Get = ({ w with last := none }, Except.ok b) := by
  simp [Window.Get, h]

theorem Window.Get_frame (w : Window) :
    w.Get.1.current = w.current ∧ w.Get.1.lastIndex = w.lastIndex := by
  unfold Window.Get
  cases w.last <;> exact ⟨rfl, rfl⟩

/-- C5. Consumed-on-read: `Window.Get` panics if and only if no closed bucket
is pending; when the bucket `b` is pending, `Get` returns `b` and clears it, so
that the `Get` that follows at once panics; `Get` never changes the current
bucket, `lastIndex` or `size`. -/
theorem Window.Get_consumes (w : Window) :
    ((∃ p, w.Get.2 = Except.error p) ↔ w.last = none) ∧
      (∀ b, w.last = some b →
        w.Get.2 = Except.ok b ∧ w.Get.1.last = none ∧
          w.Get.1.Get.2 = Except.error Panic.nilDereference) ∧
      w.Get.1.current = w.current ∧ w.Get.1.lastIndex = w.lastIndex ∧
      w.Get.1.size = w.size := by
  unfold Window.Get
  cases hl : w.last with
  | none => simp
  | some b => simp

/-- C6, counterexample: in the window `Window.restarted`, reached from
`NewWindow(0)`, a closed bucket is pending and `lastIndex + size = 0`, yet
`Push(0, 1)` with `0 >= lastIndex + size` returns `(0, false)` without a
panic. -/
theorem Window.Push_pending_restart :
    Window.Reachable 0 Window.restarted ∧ Window.restarted.last.isSome = true ∧
      (0 : Int) ≥ Window.restarted.lastIndex + Window.restarted.size ∧
      (Window.restarted.Push 0 [1]).2 = Except.ok (0, false) := by
  refine ⟨?_, by decide, by decide, ?_⟩
  · exact Window.Reachable.call _ (WindowCall.push 0 [1])
      (Window.Reachable.call _ (WindowCall.push 1 [1])
        (Window.Reachable.call _ (WindowCall.push 0 [1]) (Window.Reachable.init _ rfl)))
  · have hl : Window.restarted.lastIndex = 0 := by decide
    rw [Window.Push_zero, hl]

/-- C6, amended. Whenever a closed bucket is pending, every `Window.Push` with
an index other than 0 and `index >= lastIndex + size` (the `int64` sum the code
compares with) panics with "last bucket has not been consumed", and the window
(current bucket, pending bucket, `lastIndex`) is as before the call. -/
theorem Window.Push_pending_panics (w : Window) (index : Int) (value : List ℚ)
    (hlast : w.last.isSome = true) (h0 : index ≠ 0)
    (hge : index ≥ wrapInt64 (w.lastIndex + w.size)) :
    w.Push index value = (w, Except.error Panic.lastBucketNotConsumed) := by
  simp [Window.Push, Window.open_pending w index value hlast h0 hge]

/-- Witness of C6, amended: in `Window.restarted`, `Push(1, 1)` panics and
leaves the window as it was. -/
theorem Window.Push_pending_panics_witness :
    Window.restarted.Push 1 [1]
      = (Window.restarted, Except.error Panic.lastBucketNotConsumed) :=
  Window.Push_pending_panics Window.restarted 1 [1] (by decide) (by decide) (by decide)

theorem Window.open_index (w : Window) (index : Int) (value : List ℚ)
    (h : w.current.index = w.lastIndex) :
    (w.open index value).1.current.index = (w.open index value).1.lastIndex := by
  by_cases h0 : index = 0
  · subst h0
    rw [Window.open_zero]
  · simp only [Window.open, h0, if_false, NewBucket_natCast]
    split
    · cases w.last with
      | some b => exact h
      | none =>
        dsimp only
        cases w.current.Size with
        | error p => exact h
        | ok n => rfl
    · exact h

theorem Window.Push_current_index (w : Window) (index : Int) (value : List ℚ)
    (h : w.current.index = w.lastIndex) :
    (w.Push index value).1.current.index = (w.Push index value).1.lastIndex := by
  have ho := Window.open_index w index value h
  unfold Window.Push
  dsimp only
  split
  · exact ho
  · split
    · dsimp only
      rw [Bucket.Push_keeps_index]
      exact ho
    · dsimp only
      rw [Bucket.Push_keeps_index]
      exact ho

/-- In every window reached from `NewWindow(size)` the index of the current
bucket is `lastIndex`. -/
theorem Window.Reachable.index_eq {size : Int} {w : Window} (h : Window.Reachable size w) :
    w.current.index = w.lastIndex := by
  induction h with
  | init w h =>
    unfold NewWindow NewBucket at h
    cases hsc : NewStatsCollector size with
    | error p => simp [hsc] at h
    | ok sc =>
      simp only [hsc] at h
      injection h with h
      subst h
      rfl
  | call w c _ ih =>
    cases c with
    | push index value => exact Window.Push_current_index w index value ih
    | get =>
      have h := Window.Get_frame w
      show w.Get.1.current.index = w.Get.1.lastIndex
      rw [h.1, h.2]
      exact ih

theorem Window.open_ready (w : Window) (index : Int) (value : List ℚ)
    (h : (w.open index value).2 = Except.ok true) :
    (w.open index value).1.last = some w.current := by
  by_cases h0 : index = 0
  · subst h0
    rw [Window.open_zero] at h
    simp at h
  · by_cases hge : index ≥ wrapInt64 (w.lastIndex + w.size)
    · simp only [Window.open, h0, hge, if_false, if_true, NewBucket_natCast] at h ⊢
      cases hl : w.last with
      | some b => simp [hl] at h
      | none =>
        simp only [hl] at h ⊢
        cases hs : w.current.Size with
        | error p => simp [hs] at h
        | ok n =>
          simp only [hs] at h ⊢
          have hn : n > 0 := by simpa using h
          simp [hn]
    · simp [Window.open, h0, hge] at h

theorem Window.Push_ok (w : Window) (index : Int) (value : List ℚ) (ci : Int) (ready : Bool)
    (h : (w.Push index value).2 = Except.ok (ci, ready)) :
    ci = w.lastIndex ∧ (w.open index value).2 = Except.ok ready ∧
      (w.Push index value).1.last = (w.open index value).1.last := by
  unfold Window.Push at h ⊢
  dsimp only at h ⊢
  cases ho : (w.open index value).2 with
  | error p => simp [ho] at h
  | ok r =>
    simp only [ho] at h ⊢
    cases hb : ((w.open index value).1.current.Push (w.open index value).1.lastIndex value).2 with
    | error p => simp [hb] at h
    | ok x =>
      simp only [hb] at h ⊢
      injection h with h
      injection h with h1 h2
      exact ⟨h1.symm, by rw [h2], trivial⟩

theorem Window.Push_last_some (w : Window) (index : Int) (value : List ℚ) (b : Bucket)
    (h : w.last = some b) : (w.Push index value).1.last = some b := by
  have ho : (w.open index value).1.last = some b := by
    by_cases h0 : index = 0
    · subst h0
      rw [Window.open_zero]
      exact h
    · simp only [Window.open, h0, if_false, h]
      split <;> exact h
  unfold Window.Push
  dsimp only
  split
  · exact ho
  · split <;> exact ho

theorem Window.pushAll_last_some (calls : List (Int × List ℚ)) :
    ∀ (w : Window) (b : Bucket), w.last = some b → (w.pushAll calls).last = some b := by
  induction calls with
  | nil => intro w b h; exact h
  | cons c t ih =>
    intro w b h
    exact ih (w.Push c.1 c.2).1 b (Window.Push_last_some w c.1 c.2 b h)

/-- C4. Closed index: in every window reached from `NewWindow(size)` by `Push`
and `Get` calls, when `Window.Push` returns `(closedIndex, true)` the bucket
that the next `Get()` returns, directly or after any further `Push` calls, has
`Index() = closedIndex`. -/
theorem Window.Get_after_closed (size : Int) (w : Window) (index : Int) (value : List ℚ)
    (closedIndex : Int) (more : List (Int × List ℚ)) (hr : Window.Reachable size w)
    (hp : (w.Push index value).2 = Except.ok (closedIndex, true)) :
    ∃ b, ((w.Push index value).1.pushAll more).Get.2 = Except.ok b ∧
      b.Index = closedIndex := by
  obtain ⟨hci, ho, hl⟩ := Window.Push_ok w index value closedIndex true hp
  have hlast : (w.Push index value).1.last = some w.current := by
    rw [hl, Window.open_ready w index value ho]
  have hm := Window.pushAll_last_some more _ _ hlast
  refine ⟨w.current, by rw [Window.Get_of_last _ _ hm], ?_⟩
  rw [hci]
  exact hr.index_eq

/-- Witness of C4: after `NewWindow(1)` and `Push(0, 1)`, the call `Push(1, 1)`
returns `(0, true)`, and after one more `Push(1, 1)` the bucket `Get()` returns
has index 0. -/
theorem Window.Get_after_closed_witness :
    ∃ b, ((Window.started.Push 1 [1]).1.pushAll [(1, [1])]).Get.2 = Except.ok b ∧
      b.Index = 0 :=
  Window.Get_after_closed 1 Window.started 1 [1] 0 [(1, [1])]
    (Window.Reachable.call _ (WindowCall.push 0 [1]) (Window.Reachable.init _ rfl)) rfl

theorem Window.Push_accumulate (w : Window) (index : Int) (value : List ℚ) (h0 : index ≠ 0)
    (hlt : index < wrapInt64 (w.lastIndex + w.size)) (hidx : w.current.index = w.lastIndex)
    (hwf : (w.current.stats.stats.length : Int) = w.current.stats.dim)
    (hv : (value.length : Int) = w.current.stats.dim) :
    w.Push index value
      = ({ w with
            current :=
              { w.current with
                stats :=
                  { w.current.stats with
                    stats := List.zipWith Stats.Push w.current.stats.stats value } } },
          Except.ok (w.lastIndex, false)) := by
  have ho : w.open index value = (w, Except.ok false) := by
    have : ¬ index ≥ wrapInt64 (w.lastIndex + w.size) := by omega
    simp [Window.open, h0, this]
  have hb := Bucket.Push_same w.current value hwf hv
  rw [hidx] at hb
  simp only [Window.Push, ho, hb, hidx]

theorem Window.Push_close (w : Window) (index : Int) (value : List ℚ) (n : Int)
    (h0 : index ≠ 0) (hge : index ≥ wrapInt64 (w.lastIndex + w.size)) (hl : w.last = none)
    (hs : w.current.Size = Except.ok n) (hn : n > 0) :
    w.Push index value
      = ({ size := w.size, lastIndex := index, last := some w.current,
           current :=
             { stats :=
                 { dim := value.length,
                   stats := List.zipWith Stats.Push (List.replicate value.length NewStats) value },
               index := index } },
          Except.ok (w.lastIndex, true)) := by
  have ho : w.open index value
      = ({ size := w.size, lastIndex := index, last := some w.current,
           current :=
             { stats := { dim := value.length, stats := List.replicate value.length NewStats },
               index := index } },
          Except.ok true) := by
    simp [Window.open, h0, hge, hl, hs, hn, NewBucket_natCast]
  have hb := Bucket.Push_same
    { stats := { dim := value.length, stats := List.replicate value.length NewStats },
      index := index }
    value (by simp) rfl
  simp only [Window.Push, ho, hb]

theorem count_of_mem_zipWith_Push (stats : List Buffer.Stats) (c : Int)
    (hc : ∀ st ∈ stats, st.count = c) :
    ∀ (v : List ℚ), ∀ st ∈ List.zipWith Stats.Push stats v, st.count = wrapInt64 (c + 1) := by
  induction stats with
  | nil => intro v st h; simp at h
  | cons a t ih =>
    intro v st h
    cases v with
    | nil => simp at h
    | cons x xs =>
      simp only [List.zipWith_cons_cons, List.mem_cons] at h
      rcases h with h | h
      · subst h
        show wrapInt64 (a.count + 1) = _
        rw [hc a (List.mem_cons_self _ _)]
      · exact ih (fun u hu => hc u (List.mem_cons_of_mem _ hu)) xs st h

theorem Window.Filled.size_eq {s d k r : Nat} {w : Window} (h : Window.Filled s d k r w)
    (hd : 1 ≤ d) : w.current.Size = Except.ok ((r + 1 : Nat) : Int) := by
  obtain ⟨_, _, _, _, _, hlen, hcount⟩ := h
  unfold Bucket.Size StatsCollector.Size
  cases hst : w.current.stats.stats with
  | nil => rw [hst] at hlen; simp at hlen; omega
  | cons a t =>
    simp only
    rw [hcount a (by rw [hst]; exact List.mem_cons_self _ _)]

/-- The window after the first sample, pushed with index 0. -/
theorem Window.Filled_feed_zero (s d : Nat) (w : Window) (value : List ℚ)
    (hsize : w.size = (s : Int)) (hlast : w.last = none) (hv : value.length = d) :
    Window.Filled s d 0 0 (w.feed 0 value) := by
  have hP := Window.Push_zero w value
  have hf : w.feed 0 value = (w.Push 0 value).1 := by
    simp only [Window.feed, hP]
  rw [hf, hP]
  refine ⟨hsize, by simp, hlast, by simp, by simp [hv], by simp [hv], ?_⟩
  intro st hst
  have h := count_of_mem_zipWith_Push (List.replicate value.length NewStats) 0
    (by intro u hu; rw [(List.mem_replicate.mp hu).2]; rfl) value st hst
  rw [h]
  decide

theorem Window.Filled.next_boundary {s d k r : Nat} {w : Window}
    (h : Window.Filled s d k r w) (hb : ((k * s + r + 1 : Nat) : Int) + s < 2 ^ 63) :
    wrapInt64 (w.lastIndex + w.size) = ((k * s + s : Nat) : Int) := by
  rw [h.1, h.2.1]
  push_cast at hb ⊢
  apply wrapInt64_of_range
  · have h1 : (0 : Int) ≤ (k : Int) * (s : Int) := by exact_mod_cast Nat.zero_le (k * s)
    omega
  · omega

/-- A sample that falls into the range of the current bucket is accumulated:
the push reports no closure. -/
theorem Window.Filled.step_accumulate {s d k r : Nat} {w : Window} (value : List ℚ)
    (h : Window.Filled s d k r w) (hr : r + 1 < s) (hv : value.length = d)
    (hb : ((k * s + r + 1 : Nat) : Int) + s < 2 ^ 63) :
    (w.Push ((k * s + r + 1 : Nat) : Int) value).2
        = Except.ok (((k * s : Nat) : Int), false) ∧
      Window.Filled s d k (r + 1) (w.feed ((k * s + r + 1 : Nat) : Int) value) := by
  have hnb := h.next_boundary hb
  obtain ⟨hsize, hlast, hnone, hidx, hdim, hlen, hcount⟩ := h
  have h0 : ((k * s + r + 1 : Nat) : Int) ≠ 0 := by omega
  have hlt : ((k * s + r + 1 : Nat) : Int) < wrapInt64 (w.lastIndex + w.size) := by
    rw [hnb]
    omega
  have hP := Window.Push_accumulate w _ value h0 hlt (by rw [hidx, hlast])
    (by rw [hlen, hdim]) (by rw [hv, hdim])
  have hf : w.feed ((k * s + r + 1 : Nat) : Int) value
      = (w.Push ((k * s + r + 1 : Nat) : Int) value).1 := by
    simp only [Window.feed, hP]
  rw [hf, hP]
  refine ⟨by rw [hlast], hsize, hlast, hnone, hidx, hdim, ?_, ?_⟩
  · simp [hlen, hv]
  · intro st hst
    have hc := count_of_mem_zipWith_Push w.current.stats.stats _ hcount value st hst
    rw [hc]
    apply wrapInt64_of_range
    · omega
    · push_cast at hb ⊢
      have h1 : (0 : Int) ≤ (k : Int) * (s : Int) := by exact_mod_cast Nat.zero_le (k * s)
      omega

/-- The first sample past the range of the current bucket closes it: the push
reports the closure with the index of the closed bucket, `Get` returns that
bucket with its `r + 1` samples, and a new bucket is started. -/
theorem Window.Filled.step_close {s d k r : Nat} {w : Window} (value : List ℚ)
    (h : Window.Filled s d k r w) (hr : r + 1 = s) (hd : 1 ≤ d) (hv : value.length = d)
    (hb : ((k * s + r + 1 : Nat) : Int) + s < 2 ^ 63) :
    (w.Push ((k * s + r + 1 : Nat) : Int) value).2
        = Except.ok (((k * s : Nat) : Int), true) ∧
      (∃ b, (w.Push ((k * s + r + 1 : Nat) : Int) value).1.Get.2 = Except.ok b ∧
        b.Size = Except.ok (s : Int)) ∧
      Window.Filled s d (k + 1) 0 (w.feed ((k * s + r + 1 : Nat) : Int) value) := by
  have hnb := h.next_boundary hb
  have hsz := h.size_eq hd
  obtain ⟨hsize, hlast, hnone, hidx, hdim, hlen, hcount⟩ := h
  have h0 : ((k * s + r + 1 : Nat) : Int) ≠ 0 := by omega
  have hge : ((k * s + r + 1 : Nat) : Int) ≥ wrapInt64 (w.lastIndex + w.size) := by
    rw [hnb]
    omega
  have hP := Window.Push_close w _ value _ h0 hge hnone hsz (by omega)
  have hk : (k + 1) * s = k * s + r + 1 := by
    rw [Nat.add_mul, Nat.one_mul]
    omega
  have hf : w.feed ((k * s + r + 1 : Nat) : Int) value
      = (w.Push ((k * s + r + 1 : Nat) : Int) value).1.Get.1 := by
    simp only [Window.feed, hP]
  rw [hf, hP]
  refine ⟨by rw [hlast], ⟨w.current, rfl, by rw [hsz, hr]⟩, ?_⟩
  refine ⟨hsize, by rw [hk]; rfl, rfl, by rw [hk]; rfl, by simp [Window.Get, hv],
    by simp [Window.Get, hv], ?_⟩
  intro st hst
  have hc := count_of_mem_zipWith_Push (List.replicate value.length NewStats) 0
    (by intro u hu; rw [(List.mem_replicate.mp hu).2]; rfl) value st hst
  rw [hc]
  decide

theorem NewWindow_ok (size : Int) (w : Window) (h : NewWindow size = Except.ok w) :
    w.size = size ∧ w.last = none ∧ w.lastIndex = 0 := by
  unfold NewWindow at h
  cases hb : NewBucket 0 size with
  | error p => simp [hb] at h
  | ok b =>
    simp only [hb] at h
    injection h with h
    subst h
    exact ⟨rfl, rfl, rfl⟩

/-- The window after the samples of the indices `0, ..., n` were fed. -/
theorem Window.feedAll_filled (s d : Nat) (vals : Nat → List ℚ) (w0 : Window) (hs : 1 ≤ s)
    (hd : 1 ≤ d) (hv : ∀ j, (vals j).length = d) (h0 : NewWindow s = Except.ok w0) :
    ∀ n : Nat, (n : Int) + s < 2 ^ 63 →
      Window.Filled s d (n / s) (n % s) (Window.feedAll vals w0 (n + 1)) := by
  intro n
  induction n with
  | zero =>
    intro _
    obtain ⟨hsize, hlast, _⟩ := NewWindow_ok s w0 h0
    have h := Window.Filled_feed_zero s d w0 (vals 0) hsize hlast (hv 0)
    simpa [Window.feedAll] using h
  | succ n ih =>
    intro hb
    have hF := ih (by omega)
    have hr : n % s < s := Nat.mod_lt n (by omega)
    have hn : n / s * s + n % s = n := by
      rw [Nat.mul_comm]
      exact Nat.div_add_mod n s
    have hidx : n / s * s + n % s + 1 = n + 1 := by omega
    have hb1 : ((n / s * s + n % s + 1 : Nat) : Int) + s < 2 ^ 63 := by
      rw [hidx]
      exact hb
    have hfeed : Window.feedAll vals w0 (n + 1 + 1)
        = (Window.feedAll vals w0 (n + 1)).feed ((n / s * s + n % s + 1 : Nat) : Int)
            (vals (n + 1)) := by
      rw [hidx]
      rfl
    rw [hfeed]
    by_cases hlt : n % s + 1 < s
    · have hdm : (n + 1) / s = n / s ∧ (n + 1) % s = n % s + 1 := by
        rw [Nat.div_mod_unique (by omega)]
        refine ⟨?_, hlt⟩
        rw [Nat.mul_comm]
        omega
      rw [hdm.1, hdm.2]
      exact (hF.step_accumulate (vals (n + 1)) hlt (hv _) hb1).2
    · have heq : n % s + 1 = s := by omega
      have hdm : (n + 1) / s = n / s + 1 ∧ (n + 1) % s = 0 := by
        rw [Nat.div_mod_unique (by omega)]
        refine ⟨?_, by omega⟩
        rw [Nat.mul_add, Nat.mul_one, Nat.mul_comm]
        omega
      rw [hdm.1, hdm.2]
      exact (hF.step_close (vals (n + 1)) heq hd (hv _) hb1).2.2

/-- C3. Closure pattern: on `NewWindow(s)`, `s >= 1`, fed with samples of a
fixed arity `d >= 1` at the consecutive indices `0, 1, 2, ...` (with `Get`
after each reported closure, and as long as `index + s` is an `int64`),
`Window.Push` returns without a panic, reports `isClosed = false` at every
index that is not a positive multiple of `s` and `isClosed = true` at every
positive multiple `i` of `s`, where `closedIndex = i - s` and the bucket that
`Get` then returns has `Size() = s`. -/
theorem Window.feedAll_closure (s d : Nat) (vals : Nat → List ℚ) (w0 : Window) (i : Nat)
    (hs : 1 ≤ s) (hd : 1 ≤ d) (hv : ∀ j, (vals j).length = d)
    (h0 : NewWindow s = Except.ok w0) (hi : (i : Int) + s < 2 ^ 63) :
    (¬ (0 < i ∧ s ∣ i) →
        ∃ closedIndex,
          ((Window.feedAll vals w0 i).Push i (vals i)).2 = Except.ok (closedIndex, false)) ∧
      ((0 < i ∧ s ∣ i) →
        ((Window.feedAll vals w0 i).Push i (vals i)).2 = Except.ok ((i : Int) - s, true) ∧
          ∃ b, ((Window.feedAll vals w0 i).Push i (vals i)).1.Get.2 = Except.ok b ∧
            b.Size = Except.ok (s : Int)) := by
  cases i with
  | zero =>
    refine ⟨fun _ => ⟨w0.lastIndex, ?_⟩, fun h => absurd h.1 (by omega)⟩
    show (w0.Push ((0 : Nat) : Int) (vals 0)).2 = _
    rw [Nat.cast_zero, Window.Push_zero]
  | succ n =>
    have hF := Window.feedAll_filled s d vals w0 hs hd hv h0 n (by omega)
    have hn : n / s * s + n % s = n := by
      rw [Nat.mul_comm]
      exact Nat.div_add_mod n s
    have hidx : n / s * s + n % s + 1 = n + 1 := by omega
    have hb1 : ((n / s * s + n % s + 1 : Nat) : Int) + s < 2 ^ 63 := by
      rw [hidx]
      exact hi
    have hr : n % s < s := Nat.mod_lt n (by omega)
    by_cases hlt : n % s + 1 < s
    · have hdm : (n + 1) / s = n / s ∧ (n + 1) % s = n % s + 1 := by
        rw [Nat.div_mod_unique (by omega)]
        refine ⟨?_, hlt⟩
        rw [Nat.mul_comm]
        omega
      have hnd : ¬ s ∣ n + 1 := by
        rw [Nat.dvd_iff_mod_eq_zero, hdm.2]
        omega
      have hP := (hF.step_accumulate (vals (n + 1)) hlt (hv _) hb1).1
      rw [hidx] at hP
      exact ⟨fun _ => ⟨_, hP⟩, fun h => absurd h.2 hnd⟩
    · have heq : n % s + 1 = s := by omega
      obtain ⟨hP, hG, _⟩ := hF.step_close (vals (n + 1)) heq hd (hv _) hb1
      rw [hidx] at hP hG
      have hci : ((n / s * s : Nat) : Int) = ((n + 1 : Nat) : Int) - s := by
        have : n / s * s + s = n + 1 := by omega
        omega
      rw [hci] at hP
      have hdvd : s ∣ n + 1 := ⟨n / s + 1, by rw [Nat.mul_add, Nat.mul_one, Nat.mul_comm]; omega⟩
      exact ⟨fun h => absurd ⟨Nat.succ_pos n, hdvd⟩ h, fun _ => ⟨hP, hG⟩⟩

/-- Witness of C3: a window of size 2 fed with one-dimensional samples closes
its first bucket at index 2, with `closedIndex = 0` and two samples in it. -/
theorem Window.feedAll_closure_witness :
    ((Window.feedAll (fun _ => [1]) Window.two 2).Push 2 [1]).2 = Except.ok (0, true) ∧
      ∃ b, ((Window.feedAll (fun _ => [1]) Window.two 2).Push 2 [1]).1.Get.2 = Except.ok b ∧
        b.Size = Except.ok 2 :=
  (Window.feedAll_closure 2 1 (fun _ => [1]) Window.two 2 (by decide) (by decide)
    (fun _ => rfl) rfl (by decide)).2 ⟨by decide, by decide⟩

/-! ## Further readings of `Stats` -/

/-- C11. Sample variance: for every sequence of at least two values (fewer
than `2^63` of them) pushed with `Stats.Push` onto `NewStats()`,
`SampleVariance()` is `(1/(n-1)) * Σ (vi - m)^2`, `m` the arithmetic mean, in
exact arithmetic; this value times `n - 1` is the population variance times
`n`. -/
theorem Stats.SampleVariance_pushAll (vs : List ℚ) (h2 : 2 ≤ vs.length)
    (hlen : (vs.length : Int) < 2 ^ 63) :
    (NewStats.pushAll vs).SampleVariance = some (sampleVariance vs) ∧
      sampleVariance vs * ((vs.length : ℚ) - 1) = populationVariance vs * (vs.length : ℚ) := by
  have hne : vs ≠ [] := by
    intro h
    rw [h] at h2
    simp at h2
  obtain ⟨hc, _, hd⟩ := Stats.pushAll_NewStats vs hne hlen
  have hw : wrapInt64 ((vs.length : Int) - 1) = (vs.length : Int) - 1 :=
    wrapInt64_of_range _ (by omega) (by omega)
  have hi : (vs.length : Int) - 1 ≠ 0 := by omega
  have hq1 : (vs.length : ℚ) - 1 ≠ 0 := by
    have : ((vs.length : Int) : ℚ) - 1 ≠ 0 := by exact_mod_cast hi
    simpa using this
  have hq : (vs.length : ℚ) ≠ 0 := by
    have : vs.length ≠ 0 := by omega
    exact_mod_cast this
  have hpv : populationVariance vs * (vs.length : ℚ)
      = (vs.map (fun v => (v - arithmeticMean vs) ^ 2)).sum := by
    unfold populationVariance
    field_simp
  refine ⟨?_, ?_⟩
  · simp only [Stats.SampleVariance, hc, hd, hw, fdivInt, hi, if_false]
    congr 1
    rw [hpv]
    unfold sampleVariance
    push_cast
    rfl
  · rw [hpv]
    unfold sampleVariance
    field_simp

/-- Witness of C11: pushing 2, 4, 4, 4, 5, 5, 7, 9 gives
`SampleVariance() = 32/7`. -/
theorem Stats.SampleVariance_pushAll_witness :
    (NewStats.pushAll [2, 4, 4, 4, 5, 5, 7, 9]).SampleVariance = some (32 / 7) := by
  have h := (Stats.SampleVariance_pushAll [2, 4, 4, 4, 5, 5, 7, 9] (by decide) (by decide)).1
  rw [h]
  norm_num [sampleVariance, arithmeticMean]

/-- C16, failing input: after `NewStats()` and `Push(-1)` the recorded maximum
is still the initial 0 although the largest (and only) pushed value is -1; the
recorded minimum is -1, the smallest pushed value. -/
theorem Stats.max_after_negative :
    (NewStats.Push (-1)).max = 0 ∧ largest (-1) [] = -1 ∧
      (NewStats.Push (-1)).min = -1 ∧ smallest (-1) [] = -1 := by
  refine ⟨?_, rfl, ?_, rfl⟩
  · simp [Stats.Push, NewStats]
  · have h : (-1 : ℚ) < MaxFloat64 := by
      unfold MaxFloat64
      norm_num
    simp [Stats.Push, NewStats, h]

/-- C17, failing input: after 1, 3, 2 were pushed onto `NewStats()`, `Diff()`
is `last - first = 1`, while the maximum less the minimum of the pushed values
is `3 - 1 = 2`. -/
theorem Stats.Diff_last_first :
    (NewStats.pushAll [1, 3, 2]).Diff = 1 ∧ largest 1 [3, 2] - smallest 1 [3, 2] = 2 := by
  refine ⟨?_, ?_⟩
  · have h1 : wrapInt64 1 = 1 := by decide
    have h2 : wrapInt64 2 = 2 := by decide
    have h3 : wrapInt64 3 = 3 := by decide
    simp [Stats.pushAll, Stats.Diff, Stats.Push, NewStats, h1, h2, h3]
    norm_num
  · simp [largest, smallest]
    norm_num

/-! ## Counts of a collector -/

theorem StatsCollector.pushAll_cons (sc : StatsCollector) (t : List ℚ) (ts : List (List ℚ)) :
    sc.pushAll (t :: ts) = (sc.Push t).1.pushAll ts := rfl

theorem StatsCollector.pushAll_wf (ts : List (List ℚ)) :
    ∀ sc : StatsCollector, (sc.stats.length : Int) = sc.dim →
      (sc.pushAll ts).dim = sc.dim ∧ ((sc.pushAll ts).stats.length : Int) = sc.dim := by
  induction ts with
  | nil => intro sc h; exact ⟨rfl, h⟩
  | cons t ts ih =>
    intro sc h
    obtain ⟨h1, h2⟩ := StatsCollector.Push_wf sc t h
    obtain ⟨h3, h4⟩ := ih (sc.Push t).1 (by rw [h2, h1])
    rw [StatsCollector.pushAll_cons]
    exact ⟨by rw [h3, h1], by rw [h4, h1]⟩

/-- Every accumulator of a collector counts the calls of `Push` that
succeeded. -/
theorem StatsCollector.pushAll_counts (ts : List (List ℚ)) :
    ∀ (sc : StatsCollector) (c : Nat), (sc.stats.length : Int) = sc.dim →
      (∀ st ∈ sc.stats, st.count = (c : Int)) → (c : Int) + ts.length < 2 ^ 63 →
      ∀ st ∈ (sc.pushAll ts).stats, st.count = ((c + sc.succeeded ts : Nat) : Int) := by
  induction ts with
  | nil =>
    intro sc c _ hc _ st hst
    simpa [StatsCollector.succeeded] using hc st hst
  | cons t ts ih =>
    intro sc c hwf hc hb st hst
    simp only [List.length_cons, Nat.cast_add, Nat.cast_one] at hb
    rw [StatsCollector.pushAll_cons] at hst
    by_cases hv : (t.length : Int) = sc.dim
    · have hP := StatsCollector.Push_of_length sc t hwf hv
      obtain ⟨h1, h2⟩ := StatsCollector.Push_wf sc t hwf
      have hc1 : ∀ u ∈ (sc.Push t).1.stats, u.count = ((c + 1 : Nat) : Int) := by
        intro u hu
        rw [hP] at hu
        rw [count_of_mem_zipWith_Push sc.stats c hc t u hu]
        push_cast
        exact wrapInt64_of_range _ (by omega) (by omega)
      have h := ih (sc.Push t).1 (c + 1) (by rw [h2, h1]) hc1 (by push_cast; omega) st hst
      rw [h]
      have hs : sc.succeeded (t :: ts) = 1 + (sc.Push t).1.succeeded ts := by
        simp only [StatsCollector.succeeded, hP]
      rw [hs]
      congr 1
      omega
    · have hP := StatsCollector.Push_of_length_ne sc t hv
      have hs : sc.succeeded (t :: ts) = 0 + sc.succeeded ts := by
        simp only [StatsCollector.succeeded, hP]
      rw [hP] at hst
      have h := ih sc c hwf hc (by omega) st hst
      rw [h, hs]
      congr 1
      omega

/-- C20. Collector counts stay equal: after any calls of
`StatsCollector.Push` (fewer than `2^63` of them, failed ones included) on
`NewStatsCollector(dim)`, `dim >= 1`, every per-dimension accumulator has the
same `Count()`, the number of calls that succeeded, and `Size()` returns that
number. -/
theorem StatsCollector.pushAll_Size (dim : Nat) (sc : StatsCollector) (ts : List (List ℚ))
    (hdim : 1 ≤ dim) (hsc : NewStatsCollector dim = Except.ok sc)
    (hlen : (ts.length : Int) < 2 ^ 63) :
    (∀ st ∈ (sc.pushAll ts).Stats, st.Count = (sc.succeeded ts : Int)) ∧
      (sc.pushAll ts).Size = Except.ok (sc.succeeded ts : Int) := by
  obtain ⟨_, rfl⟩ := NewStatsCollector_ok dim sc hsc
  have hwf : (((⟨dim, List.replicate (dim : Int).toNat NewStats⟩ : StatsCollector).stats.length
      : Nat) : Int) = (dim : Int) := by simp
  have hc := StatsCollector.pushAll_counts ts ⟨dim, List.replicate (dim : Int).toNat NewStats⟩ 0
    hwf (by intro st hst; rw [(List.mem_replicate.mp hst).2]; rfl) (by simpa using hlen)
  simp only [Nat.zero_add] at hc
  refine ⟨hc, ?_⟩
  have hl := (StatsCollector.pushAll_wf ts _ hwf).2
  unfold StatsCollector.Size
  cases hst : (StatsCollector.pushAll ⟨dim, List.replicate (dim : Int).toNat NewStats⟩ ts).stats with
  | nil =>
    rw [hst] at hl
    simp at hl
    omega
  | cons a t =>
    simp only
    rw [hc a (by rw [hst]; exact List.mem_cons_self _ _)]

/-- Witness of C20: of three calls on a two-dimensional collector the second
has the wrong arity; both accumulators count 2 and `Size()` is 2. -/
theorem StatsCollector.pushAll_Size_witness :
    (∀ st ∈ (StatsCollector.pushAll { dim := 2, stats := List.replicate 2 NewStats }
          [[1, 2], [3], [4, 5]]).Stats, st.Count = 2) ∧
      (StatsCollector.pushAll { dim := 2, stats := List.replicate 2 NewStats }
          [[1, 2], [3], [4, 5]]).Size = Except.ok 2 :=
  StatsCollector.pushAll_Size 2 { dim := 2, stats := List.replicate 2 NewStats }
    [[1, 2], [3], [4, 5]] (by decide) rfl (by decide)

/-! ## The index gate of `Bucket.Push` -/

theorem wrapInt64_range (x : Int) : -2 ^ 63 ≤ wrapInt64 x ∧ wrapInt64 x < 2 ^ 63 := by
  unfold wrapInt64
  omega

theorem count_range_of_mem_zipWith_Push (stats : List Buffer.Stats) :
    ∀ (v : List ℚ), ∀ st ∈ List.zipWith Stats.Push stats v,
      -2 ^ 63 ≤ st.count ∧ st.count < 2 ^ 63 := by
  induction stats with
  | nil => intro v st h; simp at h
  | cons a t ih =>
    intro v st h
    cases v with
    | nil => simp at h
    | cons x xs =>
      simp only [List.zipWith_cons_cons, List.mem_cons] at h
      rcases h with h | h
      · subst h
        exact wrapInt64_range _
      · exact ih xs st h

theorem NewBucket_ok (id dim : Int) (b : Bucket) (h : NewBucket id dim = Except.ok b) :
    0 ≤ dim ∧
      b = { stats := { dim := dim, stats := List.replicate dim.toNat NewStats }, index := id } := by
  unfold NewBucket at h
  cases hsc : NewStatsCollector dim with
  | error p => simp [hsc] at h
  | ok sc =>
    simp only [hsc] at h
    injection h with h
    obtain ⟨h0, rfl⟩ := NewStatsCollector_ok dim sc hsc
    exact ⟨h0, h.symm⟩

/-- In every bucket reached from `NewBucket(id, dim)` the index is `id`, the
collector has `dim` accumulators and every count is an `int`. -/
theorem Bucket.Reachable.inv {id dim : Int} {b : Bucket} (h : Bucket.Reachable id dim b) :
    b.index = id ∧ b.stats.dim = dim ∧ (b.stats.stats.length : Int) = dim ∧
      ∀ st ∈ b.stats.stats, -2 ^ 63 ≤ st.count ∧ st.count < 2 ^ 63 := by
  induction h with
  | init b h =>
    obtain ⟨h0, rfl⟩ := NewBucket_ok id dim b h
    refine ⟨rfl, rfl, ?_, ?_⟩
    · simp
      omega
    · intro st hst
      rw [(List.mem_replicate.mp hst).2]
      exact ⟨by decide, by decide⟩
  | push b index v _ ih =>
    obtain ⟨hi, hd, hl, hc⟩ := ih
    by_cases hidx : index = b.index
    · subst hidx
      by_cases hv : (v.length : Int) = b.stats.dim
      · rw [Bucket.Push_same b v (by rw [hl, hd]) hv]
        refine ⟨hi, hd, ?_, ?_⟩
        · have : v.length = b.stats.stats.length := by omega
          simp [this, hl]
        · exact count_range_of_mem_zipWith_Push b.stats.stats v
      · have hP := StatsCollector.Push_of_length_ne b.stats v hv
        have hb : b.Push b.index v
            = (b, Except.error (Panic.inconsistentDimensions v.length b.stats.dim)) := by
          simp [Bucket.Push, hP]
        rw [hb]
        exact ⟨hi, hd, hl, hc⟩
    · have hb : b.Push index v = (b, Except.ok false) := by
        simp [Bucket.Push, hidx]
      rw [hb]
      exact ⟨hi, hd, hl, hc⟩

/-- C14, counterexample: the bucket `NewBucket(5, 0)` has no dimension;
`Push(5)` with no values returns true, and `Size()` panics before and after
the call instead of growing by one. -/
theorem Bucket.Push_without_dimension :
    NewBucket 5 0 = Except.ok Bucket.empty ∧
      (Bucket.empty.Push 5 []).2 = Except.ok true ∧
      Bucket.empty.Size = Except.error Panic.indexOutOfRange ∧
      (Bucket.empty.Push 5 []).1.Size = Except.error Panic.indexOutOfRange :=
  ⟨rfl, rfl, rfl, rfl⟩

/-- C14, amended. On every bucket reached from `NewBucket(id, dim)` with
`dim >= 1`, a call `Push(index, v...)` with `len(v) = dim` returns true if and
only if `index = id`; when it returns false the bucket is unchanged, when it
returns true the values are pushed to the collector and `Size()` grows by
exactly one (as long as the count stays an `int`); `Index()` is `id` before and
after. -/
theorem Bucket.Push_gate (id dim : Int) (b : Bucket) (index : Int) (v : List ℚ)
    (hr : Bucket.Reachable id dim b) (hdim : 1 ≤ dim) (hv : (v.length : Int) = dim) :
    (b.Push index v).2 = Except.ok (decide (index = id)) ∧
      b.Index = id ∧ (b.Push index v).1.Index = id ∧
      (index ≠ id → (b.Push index v).1 = b) ∧
      (index = id →
        (b.Push index v).1.Values = (b.Values.Push v).1 ∧
          (b.Values.Push v).2 = Except.ok () ∧
          ∃ n : Int, b.Size = Except.ok n ∧
            (n + 1 < 2 ^ 63 → (b.Push index v).1.Size = Except.ok (n + 1))) := by
  obtain ⟨hi, hd, hl, hc⟩ := hr.inv
  have hidx : (b.Push index v).1.index = b.index := Bucket.Push_keeps_index b index v
  by_cases h : index = id
  · have hib : index = b.index := by rw [hi, h]
    subst hib
    have hP := Bucket.Push_same b v (by rw [hl, hd]) (by rw [hv, hd])
    have hS := StatsCollector.Push_of_length b.stats v (by rw [hl, hd]) (by rw [hv, hd])
    refine ⟨by rw [hP]; simp [h], hi, hidx.trans hi, fun hne => absurd h hne, fun _ => ?_⟩
    refine ⟨by simp [hP, hS, Bucket.Values], by simp [hS, Bucket.Values], ?_⟩
    cases hst : b.stats.stats with
    | nil => rw [hst] at hl; simp at hl; omega
    | cons a t =>
      cases hvs : v with
      | nil => rw [hvs] at hv; simp at hv; omega
      | cons x xs =>
        refine ⟨a.count, by simp [Bucket.Size, StatsCollector.Size, hst], fun hlt => ?_⟩
        have ha := hc a (by rw [hst]; exact List.mem_cons_self _ _)
        have hw : wrapInt64 (a.count + 1) = a.count + 1 :=
          wrapInt64_of_range _ (by omega) hlt
        rw [hvs] at hP
        rw [hP]
        simp only [Bucket.Size, StatsCollector.Size, hst, List.zipWith_cons_cons]
        show Except.ok (wrapInt64 (a.count + 1)) = _
        rw [hw]
  · have hne : index ≠ b.index := by rw [hi]; exact h
    have hb : b.Push index v = (b, Except.ok false) := by
      simp [Bucket.Push, hne]
    rw [hb]
    exact ⟨by simp [h], hi, hi, fun _ => rfl, fun he => absurd he h⟩

/-- Witness of C14, amended: on the bucket `NewBucket(5, 1)` creates,
`Push(5, 7)` returns true and `Push(4, 7)` leaves the bucket unchanged. -/
theorem Bucket.Push_gate_witness :
    (Bucket.Push { stats := { dim := 1, stats := [NewStats] }, index := 5 } 5 [7]).2
        = Except.ok true ∧
      (Bucket.Push { stats := { dim := 1, stats := [NewStats] }, index := 5 } 4 [7]).1
        = { stats := { dim := 1, stats := [NewStats] }, index := 5 } :=
  ⟨(Bucket.Push_gate 5 1 { stats := { dim := 1, stats := [NewStats] }, index := 5 } 5 [7]
      (Bucket.Reachable.init _ rfl) (by decide) rfl).1,
    (Bucket.Push_gate 5 1 { stats := { dim := 1, stats := [NewStats] }, index := 5 } 4 [7]
      (Bucket.Reachable.init _ rfl) (by decide) rfl).2.2.2.1 (by decide)⟩

/-! ## Restart at index 0, the first bucket, and the size window -/

/-- C18. Index 0 restarts the window: in every window, `Push(0, v...)` with a
non-empty tuple returns `(lastIndex, false)` without a panic, sets `lastIndex`
to 0 and replaces the current bucket by `NewBucket(0, len(v))` with the one
sample pushed, so that `Size()` is 1; the former current bucket is dropped, it
does not become the pending one, and `last` and `size` are as before. -/
theorem Window.Push_zero_restarts (w : Window) (value : List ℚ) (hne : value ≠ []) :
    (w.Push 0 value).2 = Except.ok (w.lastIndex, false) ∧
      (w.Push 0 value).1.lastIndex = 0 ∧
      (∃ b0, NewBucket 0 value.length = Except.ok b0 ∧
        (w.Push 0 value).1.current = (b0.Push 0 value).1 ∧
        (b0.Push 0 value).2 = Except.ok true) ∧
      (w.Push 0 value).1.current.Size = Except.ok 1 ∧
      (w.Push 0 value).1.last = w.last ∧
      (w.Push 0 value).1.size = w.size := by
  have hP := Window.Push_zero w value
  have hB := Bucket.Push_same
    { stats := { dim := value.length, stats := List.replicate value.length NewStats }, index := 0 }
    value (by simp) rfl
  rw [hP]
  refine ⟨rfl, rfl, ⟨_, NewBucket_natCast 0 value.length, by rw [hB], by rw [hB]⟩, ?_, rfl, rfl⟩
  cases value with
  | nil => exact absurd rfl hne
  | cons x xs =>
    simp only [Bucket.Size, StatsCollector.Size, List.length_cons, List.replicate_succ,
      List.zipWith_cons_cons]
    rfl

/-- Witness of C18: the restart of `Window.restarted`, which has a pending
bucket. -/
theorem Window.Push_zero_restarts_witness :
    (Window.restarted.Push 0 [4, 2]).2 = Except.ok (Window.restarted.lastIndex, false) ∧
      (Window.restarted.Push 0 [4, 2]).1.current.Size = Except.ok 1 ∧
      (Window.restarted.Push 0 [4, 2]).1.last = Window.restarted.last :=
  have h := Window.Push_zero_restarts Window.restarted [4, 2] (by decide)
  ⟨h.1, h.2.2.2.1, h.2.2.2.2.1⟩

theorem Window.open_inside (w : Window) (index : Int) (value : List ℚ) (h0 : index ≠ 0)
    (hlt : index < wrapInt64 (w.lastIndex + w.size)) :
    w.open index value = (w, Except.ok false) := by
  have : ¬ index ≥ wrapInt64 (w.lastIndex + w.size) := by omega
  simp [Window.open, h0, this]

theorem NewWindow_eq (size : Int) (w : Window) (h : NewWindow size = Except.ok w) :
    0 ≤ size ∧
      w = { size := size, lastIndex := 0, last := none,
            current :=
              { stats := { dim := size, stats := List.replicate size.toNat NewStats },
                index := 0 } } := by
  unfold NewWindow at h
  cases hb : NewBucket 0 size with
  | error p => simp [hb] at h
  | ok b =>
    simp only [hb] at h
    injection h with h
    obtain ⟨h0, rfl⟩ := NewBucket_ok 0 size b hb
    exact ⟨h0, h.symm⟩

/-- C19. The first bucket has the dimension of the window: on the window
`NewWindow(size)` creates, `2 <= size`, the current bucket has dimension
`size`, and a first `Push(index, v...)` with `0 < index < size` panics with
inconsistent dimensions, leaving the window as it was, when `len(v) != size`,
and returns `(0, false)` with the sample accumulated in the initial bucket
when `len(v) = size`. -/
theorem Window.Push_first_dimension (size : Int) (w : Window) (index : Int) (v : List ℚ)
    (h0 : NewWindow size = Except.ok w) (hs : 2 ≤ size) (hmax : size < 2 ^ 63)
    (hpos : 0 < index) (hlt : index < size) :
    w.current.stats.dim = size ∧
      ((v.length : Int) ≠ size →
        w.Push index v = (w, Except.error (Panic.inconsistentDimensions v.length size))) ∧
      ((v.length : Int) = size →
        (w.Push index v).2 = Except.ok (0, false) ∧
          (w.Push index v).1.current = (w.current.Push 0 v).1 ∧
          (w.Push index v).1.current.Size = Except.ok 1) := by
  obtain ⟨_, rfl⟩ := NewWindow_eq size w h0
  have hne : index ≠ 0 := by omega
  have hw : wrapInt64 (0 + size) = size := by
    rw [Int.zero_add]
    exact wrapInt64_of_range _ (by omega) hmax
  have hlen : ((List.replicate size.toNat NewStats).length : Int) = size := by
    simp
    omega
  refine ⟨rfl, fun hv => ?_, fun hv => ?_⟩
  · have hS := StatsCollector.Push_of_length_ne
      { dim := size, stats := List.replicate size.toNat NewStats } v hv
    have ho := Window.open_inside
      { size := size, lastIndex := 0, last := none,
        current :=
          { stats := { dim := size, stats := List.replicate size.toNat NewStats }, index := 0 } }
      index v hne (by show index < wrapInt64 (0 + size); rw [hw]; exact hlt)
    simp [Window.Push, ho, Bucket.Push, hS]
  · have hA := Window.Push_accumulate
      { size := size, lastIndex := 0, last := none,
        current :=
          { stats := { dim := size, stats := List.replicate size.toNat NewStats }, index := 0 } }
      index v hne (by show index < wrapInt64 (0 + size); rw [hw]; exact hlt) rfl hlen hv
    have hB := Bucket.Push_same
      { stats := { dim := size, stats := List.replicate size.toNat NewStats }, index := 0 }
      v hlen hv
    rw [hA]
    refine ⟨rfl, by rw [hB], ?_⟩
    obtain ⟨n, hn⟩ : ∃ n : Nat, size.toNat = n + 1 := ⟨size.toNat - 1, by omega⟩
    cases v with
    | nil => simp at hv; omega
    | cons x xs =>
      simp only [Bucket.Size, StatsCollector.Size, hn, List.replicate_succ,
        List.zipWith_cons_cons]
      rfl

/-- Witness of C19: on `NewWindow(3)` the push of one value at index 1 panics,
the push of three values is accumulated. -/
theorem Window.Push_first_dimension_witness :
    Window.three.Push 1 [7]
        = (Window.three, Except.error (Panic.inconsistentDimensions 1 3)) ∧
      (Window.three.Push 1 [7, 8, 9]).2 = Except.ok (0, false) :=
  ⟨(Window.Push_first_dimension 3 Window.three 1 [7] rfl (by decide) (by decide) (by decide)
      (by decide)).2.1 (by decide),
    ((Window.Push_first_dimension 3 Window.three 1 [7, 8, 9] rfl (by decide) (by decide)
      (by decide) (by decide)).2.2 rfl).1⟩

/-- On a size window whose counter is 0 and whose window has no pending
bucket, `Push` panics in `Get` and leaves both as they were. -/
theorem SizeWindow.Push_nil_last (sw : SizeWindow) (v : ℚ) (hi : sw.i = 0)
    (hl : sw.window.last = none) :
    (sw.Push v).2 = Except.error Panic.nilDereference ∧ (sw.Push v).1.i = 0 ∧
      (sw.Push v).1.window.last = none := by
  have hP := Window.Push_zero sw.window [v]
  simp only [SizeWindow.Push, hi, hP, Window.Get, hl]
  exact ⟨trivial, trivial, trivial⟩

/-- C13, failing input: on the size window `NewSizeWindow(3)` creates, the
first `Push(1)` panics with a nil dereference in `Window.Get` instead of
returning `(nil, false)`, and so does the push that follows. -/
theorem SizeWindow.Push_first_panics :
    NewSizeWindow 3 = Except.ok SizeWindow.three ∧
      (SizeWindow.three.Push 1).2 = Except.error Panic.nilDereference ∧
      ((SizeWindow.three.Push 1).1.Push 1).2 = Except.error Panic.nilDereference := by
  have h1 := SizeWindow.Push_nil_last SizeWindow.three 1 rfl rfl
  exact ⟨rfl, h1.1, (SizeWindow.Push_nil_last _ 1 h1.2.1 h1.2.2).1⟩

end Buffer

/-! ## The pending-batch state of the recurrent network -/

namespace Rnn

open Buffer

/-- When the batch is ready, `Train` on an initialised network does call
`Forward` on the layer. -/
theorem Network.Train_ready_calls {σ : Sig} (d : Deps σ) (net : Network σ) (data : Vector)
    (l : σ.Layer) (hinit : net.RNNLayer = some l)
    (hready : (d.Push net.trainOutput data).2 = true) :
    LayerCall.Forward ∈ (Network.Train d net data).calls := by
  simp only [Network.Train, hready, if_true, Network.trainBatch, hinit]
  split
  · simp
  · split
    · simp
    · simp only [Network.finish]
      simp

/-- C9. Pending batch: on an initialised network, when `Push` on the training
window reports that the batch is not ready, `Train` returns the all-zero vector
of length `len(data)` together with the weights of the layer, calls neither
`Forward` nor `Backward`, and leaves the layer (hence its weights), the
`Iteration` counter and the error statistics as they were. -/
theorem Network.Train_pending {σ : Sig} (d : Deps σ) (net : Network σ) (data : Vector)
    (l : σ.Layer) (hinit : net.RNNLayer = some l)
    (hpend : (d.Push net.trainOutput data).2 = false) :
    (Network.Train d net data).out = Except.ok (List.replicate data.length 0, d.Weights l) ∧
      (Network.Train d net data).calls = [] ∧
      (Network.Train d net data).net.RNNLayer = net.RNNLayer ∧
      (Network.Train d net data).net.Stats = net.Stats := by
  simp [Network.Train, hpend, Network.finish, hinit, Vec]

/-- Witness of C9: the first vector pushed to `Network.counters` leaves the
batch pending. -/
theorem Network.Train_pending_witness :
    (Network.Train Deps.counters Network.counters [1, 2]).out = Except.ok ([0, 0], (7 : Nat)) ∧
      (Network.Train Deps.counters Network.counters [1, 2]).calls = [] ∧
      (Network.Train Deps.counters Network.counters [1, 2]).net.RNNLayer = some (7 : Nat) ∧
      (Network.Train Deps.counters Network.counters [1, 2]).net.Stats
        = Network.counters.Stats :=
  Network.Train_pending Deps.counters Network.counters [1, 2] (7 : Nat) rfl rfl

/-- C15, counterexample: on the network `New(2, 2, 2)` creates, whose layer
is not initialised, `WithWeights` with a weight matrix without rows fails: the
constructor rejects the shape, and the layer stays uninitialised. -/
theorem Network.WithWeights_shape_mismatch :
    Network.unset.RNNLayer = none ∧
      Network.WithWeights LayerDeps.shaped Network.unset []
        = (Network.unset, Except.error Panic.dimensionMismatch) := by
  refine ⟨rfl, ?_⟩
  have h : LoadRNNLayer 2 2 2 () () [] 0 = Except.error Panic.dimensionMismatch := by
    simp [LoadRNNLayer]
  simp only [Network.WithWeights, Network.unset, LayerDeps.shaped, h]

/-- With weights of the declared shape the constructor modelled from the spec
returns, and `WithWeights` installs the layer on `Network.unset`. -/
theorem Network.WithWeights_installs :
    Network.WithWeights LayerDeps.shaped Network.unset [[1, 2], [3, 4]]
      = ({ Network.unset with RNNLayer := some [[1, 2], [3, 4]] }, Except.ok ()) := by
  have h : LoadRNNLayer 2 2 2 () () [[1, 2], [3, 4]] 0 = Except.ok [[1, 2], [3, 4]] := by
    simp [LoadRNNLayer]
  simp only [Network.WithWeights, Network.unset, LayerDeps.shaped, h]

/-- C15, amended. `Network.WithWeights` and `Network.InitWeights` panic with
"rnn layer already initialised" whenever the recurrent layer is already there,
and the network is as it was; on a network without a layer they call
`LoadRNNLayer`, respectively `NewRNNLayer`, with `n`, `xDim`, `hDim`, the
learning rule, the neuron factory and their argument: when the constructor
fails the call fails the same way and the network is as it was, when it returns
a layer that layer is installed.  So a call fails if and only if the layer is
already initialised or the constructor fails.  In every case `n`, `xDim`,
`hDim`, the learning rule, the loss and both windows are unchanged. -/
theorem Network.WithWeights_InitWeights_outcome {σ : Sig} {Gen : Type} (d : LayerDeps σ Gen)
    (net : Network σ) (weights : σ.Weights) (weightGenerator : Gen) :
    (net.RNNLayer ≠ none →
        Network.WithWeights d net weights
            = (net, Except.error Panic.rnnLayerAlreadyInitialised) ∧
          Network.InitWeights d net weightGenerator
            = (net, Except.error Panic.rnnLayerAlreadyInitialised)) ∧
      (net.RNNLayer = none →
        (∀ p, d.LoadRNNLayer net.n net.xDim net.hDim net.learn net.neuronFactory weights 0
              = Except.error p →
            Network.WithWeights d net weights = (net, Except.error p)) ∧
          (∀ l, d.LoadRNNLayer net.n net.xDim net.hDim net.learn net.neuronFactory weights 0
              = Except.ok l →
            Network.WithWeights d net weights
              = ({ net with RNNLayer := some l }, Except.ok ())) ∧
          (∀ p, d.NewRNNLayer net.n net.xDim net.hDim net.learn net.neuronFactory
                weightGenerator 0 = Except.error p →
            Network.InitWeights d net weightGenerator = (net, Except.error p)) ∧
          (∀ l, d.NewRNNLayer net.n net.xDim net.hDim net.learn net.neuronFactory
                weightGenerator 0 = Except.ok l →
            Network.InitWeights d net weightGenerator
              = ({ net with RNNLayer := some l }, Except.ok ()))) ∧
      ((∃ p, (Network.WithWeights d net weights).2 = Except.error p) ↔
        (net.RNNLayer ≠ none ∨
          ∃ p, d.LoadRNNLayer net.n net.xDim net.hDim net.learn net.neuronFactory weights 0
            = Except.error p)) ∧
      ((∃ p, (Network.InitWeights d net weightGenerator).2 = Except.error p) ↔
        (net.RNNLayer ≠ none ∨
          ∃ p, d.NewRNNLayer net.n net.xDim net.hDim net.learn net.neuronFactory
            weightGenerator 0 = Except.error p)) ∧
      (∀ r, r = (Network.WithWeights d net weights).1 ∨
          r = (Network.InitWeights d net weightGenerator).1 →
        r.n = net.n ∧ r.xDim = net.xDim ∧ r.hDim = net.hDim ∧ r.learn = net.learn ∧
          r.loss = net.loss ∧ r.predictInput = net.predictInput ∧
          r.trainOutput = net.trainOutput) := by
  unfold Network.WithWeights Network.InitWeights
  cases hl : net.RNNLayer with
  | some l0 =>
    refine ⟨by simp, by simp, by simp, by simp, ?_⟩
    rintro r (rfl | rfl) <;> exact ⟨rfl, rfl, rfl, rfl, rfl, rfl, rfl⟩
  | none =>
    cases hL : d.LoadRNNLayer net.n net.xDim net.hDim net.learn net.neuronFactory weights 0 <;>
      cases hN : d.NewRNNLayer net.n net.xDim net.hDim net.learn net.neuronFactory
        weightGenerator 0 <;>
      (refine ⟨by simp, by simp, by simp, by simp, ?_⟩
       rintro r (rfl | rfl) <;> exact ⟨rfl, rfl, rfl, rfl, rfl, rfl, rfl⟩)

end Rnn

/-! ## The sliding window of `xmath/time` -/

namespace Time

theorem Window.pushAll_concat {α : Type} (w : Window α) (xs : List α) (v : α) :
    w.pushAll (xs ++ [v]) = ((w.pushAll xs).Push v).1 := by
  simp [Window.pushAll, List.foldl_append]

/-- The buffer holds the last `size` of the pushed elements, in insertion
order. -/
theorem Window.pushAll_mem {α : Type} (size : Nat) (hs : 1 ≤ size) (xs : List α) :
    ((NewWindow size).pushAll xs).size = size ∧
      ((NewWindow size).pushAll xs).mem = xs.drop (xs.length - size) := by
  induction xs using List.reverseRecOn with
  | nil => exact ⟨rfl, by simp [Window.pushAll, NewWindow]⟩
  | append_singleton xs v ih =>
    obtain ⟨hsz, hm⟩ := ih
    rw [Window.pushAll_concat]
    refine ⟨hsz, ?_⟩
    simp only [Window.Push, hsz, hm, List.length_drop, List.length_append, List.length_singleton]
    by_cases hlt : xs.length < size
    · have h1 : xs.length - size = 0 := by omega
      have h2 : xs.length + 1 - size = 0 := by omega
      simp [h1, h2, hlt]
    · have h1 : ¬ (xs.length - (xs.length - size) < size) := by omega
      have h2 : xs.length + 1 - size = xs.length - size + 1 := by omega
      rw [if_neg h1, List.tail_drop, h2, List.drop_append_of_le_length (by omega)]

/-- C12. Sliding vector window: on `NewWindow(size)`, `size >= 1`, the push
number `k`, that of `v` after the elements `pre` (`k = len(pre) + 1`), reports
`isReady = true` if and only if `k >= size`; the batch then consists of the
last `size` pushed elements in insertion order, so it has `size` elements, its
last one is `v` and its first one is the element pushed `size - 1` pushes
earlier. -/
theorem Window.Push_sliding {α : Type} (size : Nat) (pre : List α) (v : α) (hs : 1 ≤ size) :
    (((NewWindow size).pushAll pre).Push v).2.2 = decide (size ≤ pre.length + 1) ∧
      (size ≤ pre.length + 1 →
        (((NewWindow size).pushAll pre).Push v).2.1
            = (pre ++ [v]).drop (pre.length + 1 - size) ∧
          (((NewWindow size).pushAll pre).Push v).2.1.length = size ∧
          (((NewWindow size).pushAll pre).Push v).2.1.getLast? = some v ∧
          (((NewWindow size).pushAll pre).Push v).2.1.head?
            = (pre ++ [v])[pre.length + 1 - size]?) := by
  obtain ⟨hsz, _⟩ := Window.pushAll_mem size hs pre
  obtain ⟨_, hm1⟩ := Window.pushAll_mem size hs (pre ++ [v])
  rw [Window.pushAll_concat] at hm1
  simp only [List.length_append, List.length_singleton] at hm1
  have hmem : (((NewWindow size).pushAll pre).Push v).1.mem
      = (if ((NewWindow size).pushAll pre).mem.length < ((NewWindow size).pushAll pre).size
          then ((NewWindow size).pushAll pre).mem ++ [v]
          else ((NewWindow size).pushAll pre).mem.tail ++ [v]) := rfl
  rw [hmem, hsz] at hm1
  have hlen : ((pre ++ [v]).drop (pre.length + 1 - size)).length
      = pre.length + 1 - (pre.length + 1 - size) := by simp
  simp only [Window.Push, hsz, hm1, hlen]
  refine ⟨?_, fun hk => ?_⟩
  · by_cases hk : size ≤ pre.length + 1
    · have : pre.length + 1 - (pre.length + 1 - size) = size := by omega
      simp [hk, this]
    · have : pre.length + 1 - (pre.length + 1 - size) ≠ size := by omega
      simp [hk, this]
  · have h1 : pre.length + 1 - (pre.length + 1 - size) = size := by omega
    simp only [h1, decide_True, if_true]
    refine ⟨trivial, ?_, ?_, ?_⟩
    · simp
      omega
    · rw [List.getLast?_drop]
      have : ¬ (pre ++ [v]).length ≤ pre.length + 1 - size := by simp; omega
      rw [if_neg this, List.getLast?_concat]
    · simp

/-- Witness of C12: in a window of size 2 the third push returns the last two
elements. -/
theorem Window.Push_sliding_witness :
    (((NewWindow 2).pushAll [10, 20]).Push (30 : Nat)).2.2 = true ∧
      (((NewWindow 2).pushAll [10, 20]).Push (30 : Nat)).2.1 = [20, 30] :=
  have h := Window.Push_sliding 2 [10, 20] (30 : Nat) (by decide)
  ⟨h.1, (h.2 (by decide)).1⟩

/-- Every assertion of `TestWindow_Add` (size 10, the values 1 to 24) holds. -/
theorem testWindowAdd_passes : (testWindowAdd 10 24).1 = true := by
  decide

end Time
